import Mathlib

/-!
# Request ingestion of the image server (`request.c`)

A shallow embedding of the buffer, request-line and multipart functions of
`request.c`, and theorems about them.

Conventions of the embedding.

* A byte is a `Nat`; `bytes "GET"` is the list of ASCII codes of a literal.
* `client->buf` is a `List Nat`: the bytes of the array `char buf[MAXLINE]`.
  An access at an index outside the list is outside the array and yields
  `Outcome.undefined`.
* `int` variables (`num_bytes`, the result of `find_network_newline`) are `Int`.
  The values met here stay far below `2^31`, so no wrap-around is modelled.
* `Outcome` separates a normal return, `exit(code)`, undefined behaviour and
  the exhaustion of the step budget of a looping model.
* The constants of `request.h` (`MAXLINE`, `MAX_QUERY_PARAMS`) are parameters.
* A heap string (`method`, `path`, a boundary, a file name) is modelled by its
  contents. For the names and values that `parse_query` stores the size of the
  block is modelled too (`copy_token`): the block is one byte short of what
  `strcpy` writes, and `usable` says how many bytes the allocator really gave.
  The blocks of `method` and `path` are asked for in the same way; their
  sizes are not modelled.
* `malloc` does not initialise: the `params` array of a new `ReqData` holds
  whatever the allocator returned, the parameter `fresh`.
* The socket is the list of results its next `read` calls will give.
* The file behind `file_fd` is the list of the bytes written to it so far.
-/

namespace ImageServer

/-! ## Bytes and outcomes -/

/-- ASCII codes of a string literal. -/
def bytes (s : String) : List Nat := s.toList.map Char.toNat

/-- Carriage return. -/
def CR : Nat := 13

/-- Line feed. -/
def LF : Nat := 10

/-- Result of running a C function of the model. -/
inductive Outcome (α : Type) where
  | ok (a : α)
  | exit (code : Int)
  | undefined
  | fuel
deriving DecidableEq, Repr

/-- Sequencing: anything but a normal return stops the computation. -/
def Outcome.bind {α β : Type} : Outcome α → (α → Outcome β) → Outcome β
  | .ok a, f => f a
  | .exit c, _ => .exit c
  | .undefined, _ => .undefined
  | .fuel, _ => .fuel

instance : Monad Outcome where
  pure := Outcome.ok
  bind := Outcome.bind

/-- The read `buf[i]`. -/
def load (buf : List Nat) (i : Nat) : Outcome Nat :=
  match buf[i]? with
  | some c => .ok c
  | none => .undefined

/-! ## The constants of `request.h` that are string literals -/

/-- Modelled from the spec: the macro `GET` of `request.h`, which is not among
the sources; the spec names the supported method literals GET and POST. -/
def GET : List Nat := bytes "GET"

/-- Modelled from the spec: the macro `POST` of `request.h`, which is not among
the sources. -/
def POST : List Nat := bytes "POST"

/-- One query parameter slot (`Fdata`): `none` is the NULL pointer. -/
structure Fdata where
  name : Option (List Nat)
  value : Option (List Nat)
deriving DecidableEq, Repr

/-- The request descriptor (`ReqData`). -/
structure ReqData where
  method : List Nat
  path : List Nat
  params : List Fdata
deriving DecidableEq, Repr

/-- The connection state (`ClientState`). -/
structure ClientState where
  sock : Int
  buf : List Nat
  num_bytes : Int
  reqData : Option ReqData
deriving DecidableEq, Repr

/-- The socket: the results of the coming `read` calls, `none` for a failing
read, `some d` for the arrival of the bytes `d`. The empty list is end of
stream. -/
abbrev Net := List (Option (List Nat))

/-! ## libc -/

/-- The C string at the start of a memory region: the bytes before the first
NUL. Without a NUL in the region a string function runs off its end. -/
def cstring (mem : List Nat) : Outcome (List Nat) :=
  if 0 ∈ mem then .ok (mem.takeWhile (fun c => c ≠ 0)) else .undefined

/-- Whether `s` begins with `needle`. -/
def starts_with : List Nat → List Nat → Bool
  | _, [] => true
  | [], _ :: _ => false
  | c :: s, d :: needle => decide (c = d) && starts_with s needle

/-- The index of the first occurrence of `needle` in the string `s`
(`strstr`), `none` for NULL. -/
def strstr : List Nat → List Nat → Option Nat
  | [], needle => if needle = [] then some 0 else none
  | c :: s, needle =>
    if starts_with (c :: s) needle then some 0 else (strstr s needle).map (fun i => i + 1)

/-- One `strtok` step over the string `s`: the token (or NULL), the index in
`s` of the delimiter overwritten with NUL (if the token ends at one), and the
string the next call continues with. -/
def strtok (s delims : List Nat) : Option (List Nat) × Option Nat × List Nat :=
  let lead := (s.takeWhile (fun c => decide (c ∈ delims))).length
  let tok := (s.drop lead).takeWhile (fun c => decide (c ∉ delims))
  match tok with
  | [] => (none, none, [])
  | _ :: _ =>
    match s.drop (lead + tok.length) with
    | [] => (some tok, none, [])
    | _ :: rest => (some tok, some (lead + tok.length), rest)

/-- The call `memset(buf + off, c, n)` inside the array `buf`. -/
def memset (buf : List Nat) (off : Int) (c : Nat) (n : Int) : Outcome (List Nat) :=
  if 0 ≤ off ∧ 0 ≤ n ∧ off + n ≤ buf.length then
    .ok (buf.take off.toNat ++ List.replicate n.toNat c ++ buf.drop (off.toNat + n.toNat))
  else .undefined

/-- The call `memmove(buf + dst, buf + src, n)` inside the array `buf`. -/
def memmove (buf : List Nat) (dst src n : Int) : Outcome (List Nat) :=
  if 0 ≤ dst ∧ 0 ≤ src ∧ 0 ≤ n ∧ dst + n ≤ buf.length ∧ src + n ≤ buf.length then
    .ok (buf.take dst.toNat ++ (buf.drop src.toNat).take n.toNat ++ buf.drop (dst.toNat + n.toNat))
  else .undefined

/-- The call `read(sock, buf, count)`: result, new array contents, new socket.
Data that does not fit in `count` stays in the socket. -/
def read (net : Net) (buf : List Nat) (count : Int) : Outcome (Int × List Nat × Net) :=
  if 0 ≤ count ∧ count ≤ buf.length then
    match net with
    | [] => .ok (0, buf, [])
    | none :: net1 => .ok (-1, buf, net1)
    | some d :: net1 =>
      let got := d.take count.toNat
      .ok (got.length, got ++ buf.drop got.length,
        if d.length ≤ count.toNat then net1 else some (d.drop count.toNat) :: net1)
  else .undefined

/-- The call `strncmp(s1, s2, n)` on two memory regions. -/
def strncmp : List Nat → List Nat → Nat → Outcome Int
  | _, _, 0 => .ok 0
  | a :: s1, b :: s2, n + 1 =>
    if a ≠ b then .ok ((a : Int) - (b : Int)) else if a = 0 then .ok 0 else strncmp s1 s2 n
  | _, _, _ + 1 => .undefined

/-- At most `n` bytes of the string at the start of `mem`. -/
def strn_head : List Nat → Nat → Outcome (List Nat)
  | _, 0 => .ok []
  | [], _ + 1 => .undefined
  | c :: mem, n + 1 => if c = 0 then .ok [] else (strn_head mem n).bind (fun s => .ok (c :: s))

/-- The loop of `find_network_newline`; `fuel` is `inbuf - index`. -/
def find_network_newline_loop (buf : List Nat) : Nat → Nat → Outcome Int
  | 0, _ => .ok (-1)
  | fuel + 1, index =>
    (load buf index).bind fun c =>
      if c = CR then
        (load buf (index + 1)).bind fun d =>
          if d = LF then .ok ((index : Int) + 2)
          else find_network_newline_loop buf fuel (index + 1)
      else find_network_newline_loop buf fuel (index + 1)

/-- Model of `find_network_newline(buf, inbuf)`. -/
def find_network_newline (buf : List Nat) (inbuf : Int) : Outcome Int :=
  find_network_newline_loop buf inbuf.toNat 0

/-- Model of `remove_buffered_line(client)`. -/
def remove_buffered_line (MAXLINE : Nat) (client : ClientState) : Outcome ClientState := do
  let new_start ←
    if client.num_bytes = 0 then pure (-1)
    else find_network_newline client.buf client.num_bytes
  if new_start = -1 then
    let buf ← memset client.buf 0 0 MAXLINE
    pure { client with buf := buf, num_bytes := 0 }
  else
    let num_bytes := client.num_bytes - new_start
    let buf ← memmove client.buf 0 new_start num_bytes
    let buf ← memset buf num_bytes 0 (MAXLINE - num_bytes)
    pure { client with buf := buf, num_bytes := num_bytes }

/-- Model of `read_from_client(client)`: return value, state, socket. -/
def read_from_client (MAXLINE : Nat) (client : ClientState) (net : Net) :
    Outcome (Int × ClientState × Net) := do
  let client ← remove_buffered_line MAXLINE client
  let (read_bytes, buf, net) ← read net client.buf (MAXLINE - 1)
  if read_bytes < 0 then
    pure (-1, { client with buf := buf }, net)
  else
    pure (read_bytes, { client with buf := buf, num_bytes := client.num_bytes + read_bytes }, net)

/-- The copy `p = malloc(strlen(token)); strcpy(p, token)` that `parse_query`
makes of a name or a value. `strcpy` writes the bytes of the token and then a
NUL, one byte more than `malloc` was asked for. `usable n` is the number of
bytes that may be written in the block `malloc(n)` returns (the C standard
promises `n`; allocators round up). When the NUL falls outside them the copy
has no defined result. -/
def copy_token (usable : Nat → Nat) (token : List Nat) : Outcome (List Nat) :=
  if token.length + 1 ≤ usable token.length then .ok token else .undefined

/-- The usable size of the block `malloc(n)` returns on 64-bit glibc
(`malloc_usable_size`): the request and an 8-byte header are rounded up to a
multiple of 16, with 32 as the least chunk. An instance of `usable` for the
evaluations. -/
def usable_size_glibc (n : Nat) : Nat := max 24 ((n + 23) / 16 * 16 - 8)

/-- The `while` loop of `parse_query`; `fuel` is `MAX_QUERY_PARAMS - index`,
`token` the current token and `rest` the string `strtok` continues with. -/
def parse_query_loop (usable : Nat → Nat) : Nat → Nat → Option (List Nat) → List Nat →
    List Fdata → Outcome (Nat × List Fdata)
  | 0, index, _, _, params => .ok (index, params)
  | fuel + 1, index, token, rest, params =>
    match token with
    | none => .undefined
    | some t =>
      if strstr t (bytes "HTTP") ≠ none then .ok (index, params)
      else
        (copy_token usable t).bind fun name =>
          match strtok rest (bytes "& ") with
          | (none, _, _) => .undefined
          | (some v, _, rest1) =>
            (copy_token usable v).bind fun value =>
              parse_query_loop usable fuel (index + 1) (strtok rest1 (bytes "= ")).1
                (strtok rest1 (bytes "= ")).2.2 (params.set index ⟨some name, some value⟩)

/-- The final `for` loop of `parse_query`; the first argument is
`MAX_QUERY_PARAMS - index`. -/
def clear_params : Nat → Nat → List Fdata → List Fdata
  | 0, _, params => params
  | n + 1, index, params => clear_params n (index + 1) (params.set index ⟨none, none⟩)

/-- Model of `parse_query(req, str)` on the array `req->params`. -/
def parse_query (usable : Nat → Nat) (MAX_QUERY_PARAMS : Nat) (params : List Fdata)
    (str : List Nat) : Outcome (List Fdata) :=
  (parse_query_loop usable MAX_QUERY_PARAMS 0 (strtok str (bytes "=")).1
      (strtok str (bytes "=")).2.2 params).bind fun r =>
    if r.1 ≠ MAX_QUERY_PARAMS then .ok (clear_params (MAX_QUERY_PARAMS - r.1) r.1 r.2)
    else .ok r.2

/-- Model of `parse_req_start_line(client)`: return value and state. -/
def parse_req_start_line (usable : Nat → Nat) (MAX_QUERY_PARAMS : Nat) (fresh : List Fdata)
    (client : ClientState) : Outcome (Int × ClientState) :=
  (find_network_newline client.buf client.num_bytes).bind fun crlf_exists =>
    if crlf_exists = -1 then .ok (0, client)
    else
      (cstring client.buf).bind fun s =>
        (if strstr s GET = none then
            if strstr s POST = none then Outcome.exit 1 else Outcome.ok POST
          else Outcome.ok GET).bind fun start =>
          (match strstr s (bytes "?") with
            | some q => parse_query usable MAX_QUERY_PARAMS fresh (s.drop (q + 1))
            | none => Outcome.ok fresh).bind fun params =>
            match strstr s (bytes "/") with
            | none => Outcome.exit 1
            | some t =>
              match strtok (s.drop t) (bytes " ?") with
              | (none, _, _) => Outcome.undefined
              | (some target, stop, _) =>
                .ok (1, { client with
                  buf := match stop with
                    | some k => client.buf.set (t + k) 0
                    | none => client.buf
                  reqData := some { method := start, path := target, params := params } })

/-- The index of the last occurrence of the byte `c` in the string `s`
(`strrchr`), `none` for NULL. -/
def strrchr : List Nat → Nat → Option Nat
  | [], _ => none
  | a :: s, c =>
    match strrchr s c with
    | some i => some (i + 1)
    | none => if a = c then some 0 else none

/-- The assignment `buf[i] = v` inside the array `buf`. -/
def store (buf : List Nat) (i : Int) (v : Nat) : Outcome (List Nat) :=
  if 0 ≤ i ∧ i < buf.length then .ok (buf.set i.toNat v) else .undefined

/-- The call `write(file_fd, buf, n)`: the bytes of the file afterwards. -/
def write_fd (sink buf : List Nat) (n : Int) : Outcome (List Nat) :=
  if 0 ≤ n ∧ n ≤ buf.length then .ok (sink ++ buf.take n.toNat) else .undefined

/-- The `for` loop of `remove_client` over `reqData->params`; `fuel` is
`MAX_QUERY_PARAMS - i`. -/
def remove_client_loop : Nat → Nat → List Fdata → Outcome (List Fdata)
  | 0, _, params => .ok params
  | fuel + 1, i, params =>
    match params[i]? with
    | none => .undefined
    | some f =>
      if f.name ≠ none then remove_client_loop fuel (i + 1) (params.set i ⟨none, none⟩)
      else .ok params

/-- Model of `remove_client(cs)`. What `free` and `close` do to the heap and to
the socket is outside the state. -/
def remove_client (MAX_QUERY_PARAMS : Nat) (cs : ClientState) : Outcome ClientState :=
  (match cs.reqData with
    | some rd => (remove_client_loop MAX_QUERY_PARAMS 0 rd.params).bind fun _ => Outcome.ok ()
    | none => Outcome.ok ()).bind fun _ =>
    .ok { cs with reqData := none, sock := -1, num_bytes := 0 }

/-- The first loop of `get_bitmap_filename`: `true` when it leaves through
`break`, `false` when it returns NULL. -/
def get_bitmap_filename_seek (MAXLINE : Nat) (boundary : List Nat) : Nat → ClientState → Net →
    Outcome (Bool × ClientState × Net)
  | 0, _, _ => .fuel
  | fuel + 1, client, net =>
    let len_boundary : Int := boundary.length
    (find_network_newline client.buf client.num_bytes).bind fun where_nl =>
      if where_nl > 0 then
        (if where_nl < len_boundary + 2 then Outcome.ok true
          else (strncmp (boundary ++ [0]) client.buf len_boundary.toNat).bind
            fun r => .ok (decide (r ≠ 0))).bind fun skip =>
          (remove_buffered_line MAXLINE client).bind fun client1 =>
            if skip then get_bitmap_filename_seek MAXLINE boundary fuel client1 net
            else .ok (true, client1, net)
      else
        (read_from_client MAXLINE client net).bind fun r =>
          if r.1 ≤ 0 then .ok (false, r.2.1, r.2.2)
          else get_bitmap_filename_seek MAXLINE boundary fuel r.2.1 r.2.2

/-- The part of `get_bitmap_filename` after its loop: the file name, the state. -/
def get_bitmap_filename_extract (MAXLINE : Nat) (client : ClientState) :
    Outcome (List Nat × ClientState) :=
  (find_network_newline client.buf client.num_bytes).bind fun where_nl =>
    (store client.buf (where_nl - 1) 0).bind fun buf1 =>
      (cstring buf1).bind fun s =>
        match strrchr s 61 with
        | none => Outcome.undefined
        | some j =>
          let raw_filename : Int := (j : Int) + 2
          let len_filename : Int := where_nl - 3 - raw_filename
          if len_filename < 0 then Outcome.undefined
          else
            (strn_head (buf1.drop raw_filename.toNat) len_filename.toNat).bind fun filename =>
              (store buf1 (where_nl - 1) LF).bind fun buf2 =>
                (remove_buffered_line MAXLINE { client with buf := buf2 }).bind fun client1 =>
                  .ok (filename, client1)

/-- Model of `get_bitmap_filename(client, boundary)`: the file name (or NULL),
state, socket. -/
def get_bitmap_filename (MAXLINE : Nat) (boundary : List Nat) (fuel : Nat) (client : ClientState)
    (net : Net) : Outcome (Option (List Nat) × ClientState × Net) :=
  (get_bitmap_filename_seek MAXLINE boundary fuel client net).bind fun r =>
    if r.1 = false then .ok (none, r.2.1, r.2.2)
    else
      (get_bitmap_filename_extract MAXLINE r.2.1).bind fun e => .ok (some e.1, e.2, r.2.2)

/-- The `while` loop of `save_file_upload`: return value, state, socket and the
bytes of the file. -/
def save_file_upload_loop (MAXLINE : Nat) (boundary_end_string : List Nat) : Nat → ClientState →
    Net → List Nat → Outcome (Int × ClientState × Net × List Nat)
  | 0, _, _, _ => .fuel
  | fuel + 1, client, net, sink =>
    (read net client.buf MAXLINE).bind fun r =>
      (cstring r.2.1).bind fun s =>
        match strstr s boundary_end_string with
        | some k =>
          (cstring (r.2.1.set k 0)).bind fun s1 =>
            (write_fd sink (r.2.1.set k 0) s1.length).bind fun sink1 =>
              .ok (0, { client with buf := r.2.1.set k 0 }, r.2.2, sink1)
        | none =>
          (write_fd sink r.2.1 r.1).bind fun sink1 =>
            save_file_upload_loop MAXLINE boundary_end_string fuel
              { client with buf := r.2.1 } r.2.2 sink1

/-- Model of `save_file_upload(client, boundary, file_fd)`; `sink` holds the
bytes written to `file_fd` so far. -/
def save_file_upload (MAXLINE : Nat) (fuel : Nat) (client : ClientState) (boundary : List Nat)
    (net : Net) (sink : List Nat) : Outcome (Int × ClientState × Net × List Nat) :=
  (remove_buffered_line MAXLINE client).bind fun client1 =>
    (remove_buffered_line MAXLINE client1).bind fun client2 =>
      (write_fd sink client2.buf client2.num_bytes).bind fun sink1 =>
        save_file_upload_loop MAXLINE (bytes "\r\n" ++ boundary ++ bytes "--\r\n") fuel
          client2 net sink1

/-! ## Evaluation on the inputs named in the specification -/

/-- An array of `n` bytes that starts with `s` and is NUL from there on. -/
def buffer_of (n : Nat) (s : String) : List Nat :=
  bytes s ++ List.replicate (n - (bytes s).length) 0

/-- An array of `n` unset parameter slots. -/
def unset_params (n : Nat) : List Fdata := List.replicate n ⟨none, none⟩

/-! ## Predicates used in the statements -/

/-- A network newline starts at index `i` of `buf`. -/
def crlf_at (buf : List Nat) (i : Nat) : Prop := buf[i]? = some CR ∧ buf[i + 1]? = some LF

instance (buf : List Nat) (i : Nat) : Decidable (crlf_at buf i) := by
  unfold crlf_at; infer_instance

/-- The text `n1=v1&...&nk=vk` of a list of name/value pairs. -/
def query_string : List (List Nat × List Nat) → List Nat
  | [] => []
  | [p] => p.1 ++ 61 :: p.2
  | p :: q :: ps => p.1 ++ 61 :: p.2 ++ 38 :: query_string (q :: ps)

/-- A byte allowed in a query name or value: not space, `?`, `=`, `&`, CR, LF
or NUL. -/
def query_byte (c : Nat) : Prop := c ∉ [32, 63, 61, 38, 13, 10, 0]

instance (c : Nat) : Decidable (query_byte c) := by
  unfold query_byte; infer_instance

/-- The NUL that ends the copy of the name and the one that ends the copy of
the value both fall inside the blocks the allocator returned. -/
def pair_fits (usable : Nat → Nat) (p : List Nat × List Nat) : Prop :=
  p.1.length + 1 ≤ usable p.1.length ∧ p.2.length + 1 ≤ usable p.2.length

instance (usable : Nat → Nat) (p : List Nat × List Nat) : Decidable (pair_fits usable p) := by
  unfold pair_fits; infer_instance

/-- A name/value pair of the claimed form: both non-empty, made of allowed
bytes, the name without the text `HTTP`. -/
def query_pair (p : List Nat × List Nat) : Prop :=
  p.1 ≠ [] ∧ p.2 ≠ [] ∧ (∀ c ∈ p.1, query_byte c) ∧ (∀ c ∈ p.2, query_byte c) ∧
    ¬ bytes "HTTP" <:+: p.1

instance (p : List Nat × List Nat) : Decidable (query_pair p) := by
  unfold query_pair; infer_instance

/-- The parameter slots holding the given pairs. -/
def slots_of (pairs : List (List Nat × List Nat)) : List Fdata :=
  pairs.map fun p => ⟨some p.1, some p.2⟩

/-- The request line `<METHOD> <path>?<query> HTTP/<version>\r\n`. -/
def request_line_query (method path : List Nat) (pairs : List (List Nat × List Nat))
    (version : List Nat) : List Nat :=
  method ++ 32 :: path ++ 63 :: query_string pairs ++ bytes " HTTP/" ++ version ++ [CR, LF]

/-- The request line `<METHOD> <path> HTTP/<version>\r\n`. -/
def request_line (method path version : List Nat) : List Nat :=
  method ++ 32 :: path ++ bytes " HTTP/" ++ version ++ [CR, LF]

/-- What follows a value inside the request line: a space and the rest `T` of
the line after the last pair, `&` and the next pairs otherwise. -/
def after_value (ps : List (List Nat × List Nat)) (T : List Nat) : List Nat :=
  match ps with
  | [] => 32 :: T
  | q :: qs => 38 :: (query_string (q :: qs) ++ 32 :: T)

/-- The given lines, each followed by a network newline, one after the other. -/
def buffered_lines : List (List Nat) → List Nat
  | [] => []
  | l :: ls => l ++ CR :: LF :: buffered_lines ls

/-- No network newline lies inside `l`. -/
def no_crlf (l : List Nat) : Prop := ∀ i, i < l.length → ¬ crlf_at l i

instance (l : List Nat) : Decidable (no_crlf l) := by
  unfold no_crlf; infer_instance

/-- A disposition line that ends with `="name"`, after the text `pre`. -/
def disposition_line (pre name : List Nat) : List Nat := pre ++ 61 :: 34 :: name ++ [34]

/-! # Theorems -/

/-! ## Sequencing -/

@[simp] theorem ok_bind {α β : Type} (a : α) (f : α → Outcome β) :
    (Outcome.ok a).bind f = f a := rfl

@[simp] theorem ok_seq {α β : Type} (a : α) (f : α → Outcome β) :
    (Outcome.ok a >>= f) = f a := rfl

@[simp] theorem pure_eq_ok {α : Type} (a : α) : (pure a : Outcome α) = Outcome.ok a := rfl

theorem load_eq {buf : List Nat} {i c : Nat} (h : buf[i]? = some c) : load buf i = .ok c := by
  simp [load, h]

/-! ## The newline scanner -/

theorem find_loop_first (buf : List Nat) (i : Nat) (hi : crlf_at buf i) :
    ∀ fuel index, index ≤ i → i < index + fuel →
      (∀ j, index ≤ j → j < i → ¬ crlf_at buf j) →
      find_network_newline_loop buf fuel index = .ok ((i : Int) + 2) := by
  intro fuel
  induction fuel with
  | zero => intro index h1 h2; omega
  | succ fuel ih =>
    intro index h1 h2 hmin
    rcases Nat.eq_or_lt_of_le h1 with heq | hlt
    · subst heq
      simp [find_network_newline_loop, load_eq hi.1, load_eq hi.2]
    · have hlen : i < buf.length := by
        by_contra hc
        have := hi.1
        rw [List.getElem?_eq_none (by omega)] at this
        cases this
      have hrec := ih (index + 1) (by omega) (by omega) (fun j hj hji => hmin j (by omega) hji)
      have h0 : buf[index]? = some buf[index] := List.getElem?_eq_getElem (by omega)
      have h1 : buf[index + 1]? = some buf[index + 1] := List.getElem?_eq_getElem (by omega)
      simp only [find_network_newline_loop, load_eq h0, load_eq h1, ok_bind]
      by_cases hc : buf[index] = CR
      · have hn : buf[index + 1] ≠ LF := by
          intro hl
          exact hmin index (le_refl _) hlt ⟨by rw [h0, hc], by rw [h1, hl]⟩
        simp [hc, hn, hrec]
      · simp [hc, hrec]

theorem find_network_newline_least (buf : List Nat) (inbuf : Int) (i : Nat)
    (hin : (i : Int) + 1 ≤ inbuf) (hi : crlf_at buf i) (hmin : ∀ j, j < i → ¬ crlf_at buf j) :
    find_network_newline buf inbuf = .ok ((i : Int) + 2) := by
  unfold find_network_newline
  exact find_loop_first buf i hi _ 0 (Nat.zero_le _) (by omega) (fun j _ hj => hmin j hj)

theorem crlf_at_end (l tail : List Nat) : crlf_at (l ++ CR :: LF :: tail) l.length := by
  constructor
  · rw [List.getElem?_append_right (le_refl _)]; simp
  · rw [List.getElem?_append_right (by omega)]; simp

/-- C6. If a `\r` immediately followed by `\n` lies entirely within the first
`inbuf` bytes, `find_network_newline buf inbuf` returns `i + 2` for the smallest
index `i` at which a `\r` is immediately followed by `\n`; a `\r` followed by
another byte is passed over. -/
theorem find_network_newline_first_crlf (buf : List Nat) (inbuf : Int) (m : Nat)
    (hin : (m : Int) + 1 < inbuf) (hcr : buf[m]? = some CR) (hlf : buf[m + 1]? = some LF) :
    ∃ i, i ≤ m ∧ buf[i]? = some CR ∧ buf[i + 1]? = some LF ∧
      (∀ j, j < i → ¬ (buf[j]? = some CR ∧ buf[j + 1]? = some LF)) ∧
      find_network_newline buf inbuf = .ok ((i : Int) + 2) := by
  classical
  have hex : ∃ i, crlf_at buf i := ⟨m, hcr, hlf⟩
  refine ⟨Nat.find hex, Nat.find_min' hex ⟨hcr, hlf⟩, (Nat.find_spec hex).1, (Nat.find_spec hex).2,
    fun j hj => Nat.find_min hex hj, ?_⟩
  have hle := Nat.find_min' hex ⟨hcr, hlf⟩
  exact find_network_newline_least buf inbuf _ (by omega) (Nat.find_spec hex)
    (fun j hj => Nat.find_min hex hj)

/-- Witness for C6: over `abc\r\ndef` (length 8) the scan returns 5, and over
`abc\rdef` (length 7), whose `\r` is followed by `d`, it returns -1. -/
theorem find_network_newline_first_crlf_witness :
    find_network_newline (bytes "abc\r\ndef") 8 = .ok 5 ∧
      find_network_newline (bytes "abc\rdef") 7 = .ok (-1) := by
  refine ⟨?_, by decide⟩
  obtain ⟨i, hi, hcr, hlf, hmin, hres⟩ :=
    find_network_newline_first_crlf (bytes "abc\r\ndef") 8 3 (by decide) (by decide) (by decide)
  have h3 : i = 3 := by
    rcases Nat.lt_or_ge i 3 with h | h
    · exfalso
      interval_cases i <;> revert hcr <;> decide
    · omega
  subst h3
  exact hres

/-! ## The line consumer -/

theorem remove_buffered_line_at (MAXLINE : Nat) (client : ClientState) (i : Nat)
    (hlen : client.buf.length = MAXLINE) (hn : client.num_bytes ≤ MAXLINE)
    (hin : (i : Int) + 2 ≤ client.num_bytes) (hi : crlf_at client.buf i)
    (hmin : ∀ j, j < i → ¬ crlf_at client.buf j) :
    remove_buffered_line MAXLINE client = .ok { client with
      buf := (client.buf.drop (i + 2)).take (client.num_bytes.toNat - (i + 2)) ++
        List.replicate (MAXLINE - (client.num_bytes.toNat - (i + 2))) 0
      num_bytes := client.num_bytes - ((i : Int) + 2) } := by
  have hfind := find_network_newline_least client.buf client.num_bytes i (by omega) hi hmin
  obtain ⟨n, hnb⟩ : ∃ n : Nat, client.num_bytes = (n : Int) := ⟨client.num_bytes.toNat, by omega⟩
  have hn0 : client.num_bytes ≠ 0 := by omega
  have hne : ((i : Int) + 2 = -1) = False := by simp; omega
  simp only [remove_buffered_line, hn0, if_false, hfind, bind, ok_bind, hne, pure, memmove, memset]
  rw [hnb] at hin hn ⊢
  have e1 : ((n : Int) - ((i : Int) + 2)) = ((n - (i + 2) : Nat) : Int) := by omega
  have c1 : ((0 : Int) ≤ 0 ∧ (0 : Int) ≤ (i : Int) + 2 ∧ (0 : Int) ≤ ((n - (i + 2) : Nat) : Int) ∧
      (0 : Int) + ((n - (i + 2) : Nat) : Int) ≤ (client.buf.length : Int) ∧
      (i : Int) + 2 + ((n - (i + 2) : Nat) : Int) ≤ (client.buf.length : Int)) := by
    rw [hlen]; omega
  rw [e1]
  simp only [c1, and_self, if_true, ok_bind]
  have hl1 : ((client.buf.drop (i + 2)).take (n - (i + 2))).length = n - (i + 2) := by
    simp [List.length_take, List.length_drop, hlen]; omega
  have i2 : ((i : Int) + 2).toNat = i + 2 := by omega
  simp only [Int.toNat_zero, List.take_zero, List.nil_append, Nat.zero_add, Int.toNat_ofNat, i2]
  have hl2 : ((client.buf.drop (i + 2)).take (n - (i + 2)) ++ client.buf.drop (n - (i + 2))).length
      = MAXLINE := by
    simp only [List.length_append, hl1, List.length_drop, hlen]; omega
  have c2 : ((0 : Int) ≤ ((n - (i + 2) : Nat) : Int) ∧
      (0 : Int) ≤ (MAXLINE : Int) - ((n - (i + 2) : Nat) : Int) ∧
      ((n - (i + 2) : Nat) : Int) + ((MAXLINE : Int) - ((n - (i + 2) : Nat) : Int)) ≤
        (((client.buf.drop (i + 2)).take (n - (i + 2)) ++
          client.buf.drop (n - (i + 2))).length : Int)) := by
    rw [hl2]; omega
  simp only [c2, and_self, if_true]
  have e2 : ((MAXLINE : Int) - ((n - (i + 2) : Nat) : Int)).toNat = MAXLINE - (n - (i + 2)) := by
    omega
  rw [e2]
  have e3 : n - (i + 2) + (MAXLINE - (n - (i + 2))) = MAXLINE := by omega
  rw [e3, List.drop_of_length_le (le_of_eq hl2), List.append_nil]
  rw [List.take_append_of_le_length (le_of_eq hl1.symm), List.take_of_length_le (le_of_eq hl1)]
  rfl

/-- C5 as amended (the statement is the claimed one; only the byte count of its
worked example changes, see the witness). For a connection state whose array
has `MAXLINE` bytes, with
`0 <= num_bytes <= MAXLINE`, whose first network newline within
`[0, num_bytes)` ends at offset `e = i + 2`, `remove_buffered_line` removes that
one line: `num_bytes` becomes `num_bytes - e`, the bytes `[0, num_bytes - e)`
are the old bytes `[e, num_bytes)` in order, every byte from there up to
`MAXLINE` is zero, and nothing else changes. -/
theorem remove_buffered_line_removes_first_line (MAXLINE : Nat) (client : ClientState) (i : Nat)
    (hlen : client.buf.length = MAXLINE) (h0 : 0 ≤ client.num_bytes)
    (hn : client.num_bytes ≤ MAXLINE) (hin : (i : Int) + 2 ≤ client.num_bytes)
    (hcr : client.buf[i]? = some CR) (hlf : client.buf[i + 1]? = some LF)
    (hmin : ∀ j, j < i → ¬ (client.buf[j]? = some CR ∧ client.buf[j + 1]? = some LF)) :
    ∃ client1, remove_buffered_line MAXLINE client = .ok client1 ∧
      client1.num_bytes = client.num_bytes - ((i : Int) + 2) ∧
      client1.buf.length = MAXLINE ∧
      (∀ k : Nat, (k : Int) < client1.num_bytes → client1.buf[k]? = client.buf[i + 2 + k]?) ∧
      (∀ k : Nat, client1.num_bytes ≤ (k : Int) → k < MAXLINE → client1.buf[k]? = some 0) ∧
      client1.sock = client.sock ∧ client1.reqData = client.reqData := by
  refine ⟨_, remove_buffered_line_at MAXLINE client i hlen hn hin ⟨hcr, hlf⟩ hmin, rfl, ?_, ?_, ?_,
    rfl, rfl⟩
  · simp only [List.length_append, List.length_take, List.length_drop, List.length_replicate, hlen]
    omega
  · intro k hk
    simp only at hk
    have hk1 : k < client.num_bytes.toNat - (i + 2) := by omega
    rw [List.getElem?_append_left (by
      simp only [List.length_take, List.length_drop, hlen]; omega)]
    rw [List.getElem?_take_of_lt hk1, List.getElem?_drop]
  · intro k hk hkM
    simp only at hk
    have hl : ((client.buf.drop (i + 2)).take (client.num_bytes.toNat - (i + 2))).length =
        client.num_bytes.toNat - (i + 2) := by
      simp only [List.length_take, List.length_drop, hlen]; omega
    rw [List.getElem?_append_right (by rw [hl]; omega), hl, List.getElem?_replicate]
    rw [if_pos (by omega)]

/-- Witness for C5 as amended: with `MAXLINE = 32`, the 20 bytes
`hello\r\ngoodbye\r\nblah` become the 13 bytes `goodbye\r\nblah`. -/
theorem remove_buffered_line_removes_first_line_witness :
    ∃ client1, remove_buffered_line 32 ⟨3, buffer_of 32 "hello\r\ngoodbye\r\nblah", 20, none⟩
        = .ok client1 ∧ client1.num_bytes = 13 ∧
      ∀ k : Nat, k < 13 → client1.buf[k]? = (bytes "goodbye\r\nblah")[k]? := by
  obtain ⟨c1, hrun, hnum, -, hlow, -, -, -⟩ :=
    remove_buffered_line_removes_first_line 32
      ⟨3, buffer_of 32 "hello\r\ngoodbye\r\nblah", 20, none⟩ 5
      (by decide) (by decide) (by decide) (by decide) (by decide) (by decide) (by decide)
  have hnum1 : c1.num_bytes = 13 := by rw [hnum]; decide
  refine ⟨c1, hrun, hnum1, fun k hk => ?_⟩
  rw [hlow k (by rw [hnum1]; omega)]
  interval_cases k <;> decide

/-- Counterexample for C5: the claimed witness gives the new `num_bytes` as 14,
but the 20 buffered bytes `hello\r\ngoodbye\r\nblah` leave the 13 bytes
`goodbye\r\nblah`, so `num_bytes` is 13. -/
theorem remove_buffered_line_count_not_14 :
    (bytes "hello\r\ngoodbye\r\nblah").length = 20 ∧
      ¬ ∃ client1,
        remove_buffered_line 32 ⟨3, buffer_of 32 "hello\r\ngoodbye\r\nblah", 20, none⟩ =
          .ok client1 ∧ client1.num_bytes = 14 := by
  refine ⟨by decide, ?_⟩
  rintro ⟨c1, hrun, h14⟩
  have hrun2 : remove_buffered_line 32 ⟨3, buffer_of 32 "hello\r\ngoodbye\r\nblah", 20, none⟩ =
      .ok ⟨3, buffer_of 32 "goodbye\r\nblah", 13, none⟩ := by decide
  rw [hrun2] at hrun
  cases hrun
  revert h14
  decide

/-! ## Reading from the client -/

theorem read_from_client_unfold (MAXLINE : Nat) (client client1 : ClientState) (net : Net)
    (h : remove_buffered_line MAXLINE client = .ok client1) :
    read_from_client MAXLINE client net =
      (read net client1.buf ((MAXLINE : Int) - 1)).bind fun r =>
        if r.1 < 0 then .ok (-1, { client1 with buf := r.2.1 }, r.2.2)
        else .ok (r.1, { client1 with buf := r.2.1, num_bytes := client1.num_bytes + r.1 }, r.2.2) := by
  simp only [read_from_client, h, bind, ok_bind, pure]

theorem read_fits (d buf : List Nat) (net1 : Net) (count : Nat) (hc : count ≤ buf.length)
    (hd : d.length ≤ count) :
    read (some d :: net1) buf (count : Int) =
      .ok ((d.length : Int), d ++ buf.drop d.length, net1) := by
  have c : ((0 : Int) ≤ (count : Int) ∧ (count : Int) ≤ (buf.length : Int)) := by omega
  simp only [read, c, and_self, if_true, Int.toNat_ofNat, List.take_of_length_le hd, hd]

/-- C8 (failing input). For every `MAXLINE = m + 4`: the buffer is full, it
starts with an empty line and `MAXLINE - 2` bytes follow. The line removal
leaves `MAXLINE - 2` bytes, the `read` asks for `MAXLINE - 1` bytes whatever
the occupancy, and when the socket delivers them `num_bytes` becomes
`2 * MAXLINE - 3`, which is above `MAXLINE`. -/
theorem read_from_client_exceeds_MAXLINE (m : Nat) :
    read_from_client (m + 4)
        ⟨3, CR :: LF :: List.replicate (m + 2) 97, ((m + 4 : Nat) : Int), none⟩
        [some (List.replicate (m + 3) 98)] =
      .ok (((m + 3 : Nat) : Int),
        ⟨3, List.replicate (m + 3) 98 ++ [0], ((2 * m + 5 : Nat) : Int), none⟩, []) ∧
    m + 4 < 2 * m + 5 := by
  refine ⟨?_, by omega⟩
  have hrem := remove_buffered_line_at (m + 4)
    ⟨3, CR :: LF :: List.replicate (m + 2) 97, ((m + 4 : Nat) : Int), none⟩ 0
    (by simp) (le_refl _) (by simp only; omega) (by simp [crlf_at]) (by intro j hj; omega)
  rw [read_from_client_unfold _ _ _ _ hrem]
  have e1 : (((m + 4 : Nat) : Int)).toNat - (0 + 2) = m + 2 := by
    rw [Int.toNat_ofNat]; omega
  have e2 : m + 4 - (m + 2) = 2 := by omega
  have e3 : ((m + 4 : Nat) : Int) - 1 = ((m + 3 : Nat) : Int) := by omega
  simp only [e1, e2, e3]
  rw [read_fits _ _ _ _ (by simp) (by simp)]
  have e5 : List.drop (m + 3) (List.replicate (m + 2) 97 ++ List.replicate 2 0) = [0] := by
    have h3 : m + 3 = (List.replicate (m + 2) 97).length + 1 := by simp
    rw [h3, List.drop_append]
    rfl
  have e6 : ¬ (((m + 3 : Nat) : Int) < 0) := by omega
  have e7 : ((m + 4 : Nat) : Int) - ((0 : Nat) + 2 : Int) + ((m + 3 : Nat) : Int) =
      ((2 * m + 5 : Nat) : Int) := by omega
  simp only [ok_bind, List.drop_succ_cons, List.drop_zero, Nat.zero_add, List.take_replicate,
    Nat.min_self, List.length_replicate, e5, e6, if_false, e7]

/-- C9 (failing input). For every `MAXLINE = m + 6`: the buffer holds the
line `a\r\n` and then `bcd`. The line removal leaves `bcd` (`k = 3`); the socket
delivers `XY` (`n = 2`). The call returns 2 and sets `num_bytes = 5`, but the
two bytes are stored at offset 0, not at offset 3: the array holds `XYd`. -/
theorem read_from_client_overwrites (m : Nat) :
    remove_buffered_line (m + 6) ⟨3, bytes "a\r\nbcd" ++ List.replicate m 0, 6, none⟩ =
      .ok ⟨3, bytes "bcd" ++ List.replicate (m + 3) 0, 3, none⟩ ∧
    read_from_client (m + 6) ⟨3, bytes "a\r\nbcd" ++ List.replicate m 0, 6, none⟩
        [some (bytes "XY")] =
      .ok (2, ⟨3, bytes "XYd" ++ List.replicate (m + 3) 0, 5, none⟩, []) := by
  have hb : bytes "a\r\nbcd" = [97, 13, 10, 98, 99, 100] := by decide
  have hb2 : bytes "bcd" = [98, 99, 100] := by decide
  have hb3 : bytes "XY" = [88, 89] := by decide
  have hb4 : bytes "XYd" = [88, 89, 100] := by decide
  have hrem : remove_buffered_line (m + 6) ⟨3, bytes "a\r\nbcd" ++ List.replicate m 0, 6, none⟩ =
      .ok ⟨3, bytes "bcd" ++ List.replicate (m + 3) 0, 3, none⟩ := by
    rw [remove_buffered_line_at (m + 6) _ 1 (by simp [hb]) (by simp only; omega)
      (by simp only; omega) (by simp [crlf_at, hb, CR, LF])
      (by intro j hj; interval_cases j; simp [crlf_at, hb, CR])]
    have e1 : m + 6 - 3 = m + 3 := by omega
    have e0 : (6 : Int).toNat - (1 + 2) = 3 := by decide
    simp only [hb, hb2, e0, e1]
    rfl
  refine ⟨hrem, ?_⟩
  rw [read_from_client_unfold _ _ _ _ hrem]
  have e3 : ((m + 6 : Nat) : Int) - 1 = ((m + 5 : Nat) : Int) := by omega
  simp only [e3]
  rw [read_fits _ _ _ _ (by simp [hb2]) (by simp [hb3])]
  simp only [hb2, hb3, hb4, ok_bind]
  rfl


/-! ## The scan reads the byte at index `inbuf` -/

/-- C7 (failing input). The buffers `abc\r\n` and `abc\rx` agree on their
first 4 bytes, and no network newline lies inside `[0, 4)`. With `inbuf = 4`
the scan reads the byte at index 4: it returns 5, which is more than `inbuf`,
on the first buffer and -1 on the second. -/
theorem find_network_newline_reads_index_inbuf :
    (bytes "abc\r\n").take 4 = (bytes "abc\rx").take 4 ∧
      (∀ i, i + 1 < 4 → ¬ crlf_at (bytes "abc\r\n") i) ∧
      find_network_newline (bytes "abc\r\n") 4 = .ok 5 ∧
      find_network_newline (bytes "abc\rx") 4 = .ok (-1) := by
  refine ⟨by decide, ?_, by decide, by decide⟩
  intro i hi
  have hi3 : i < 3 := by omega
  interval_cases i <;> decide

/-- C4 (failing input). The array holds `GET / HTTP/1.1\r\n` and
`num_bytes = 15`, so the `\n` at index 15 is not among the buffered bytes
and no network newline lies within the first `num_bytes` bytes. The scan still
reports one and `parse_req_start_line` returns 1 with a descriptor attached
instead of returning 0. -/
theorem parse_req_start_line_newline_past_num_bytes :
    (∀ i, i + 1 < 15 → ¬ crlf_at (buffer_of 32 "GET / HTTP/1.1\r\n") i) ∧
      find_network_newline (buffer_of 32 "GET / HTTP/1.1\r\n") 15 = .ok 16 ∧
      parse_req_start_line usable_size_glibc 5 (unset_params 5) ⟨3, buffer_of 32 "GET / HTTP/1.1\r\n", 15, none⟩ =
        .ok (1, ⟨3, buffer_of 32 "GET /\x00HTTP/1.1\r\n", 15,
          some ⟨bytes "GET", bytes "/", unset_params 5⟩⟩) := by
  refine ⟨?_, by decide, by decide⟩
  intro i hi
  have hi14 : i < 14 := by omega
  interval_cases i <;> decide


/-! ## String functions -/

theorem starts_with_iff (s needle : List Nat) : starts_with s needle = true ↔ needle <+: s := by
  induction needle generalizing s with
  | nil => simp [starts_with]
  | cons d needle ih =>
    cases s with
    | nil => simp [starts_with]
    | cons c s =>
      simp only [starts_with, Bool.and_eq_true, decide_eq_true_eq, ih, List.cons_prefix_cons]
      constructor
      · rintro ⟨h1, h2⟩; exact ⟨h1.symm, h2⟩
      · rintro ⟨h1, h2⟩; exact ⟨h1.symm, h2⟩

theorem starts_with_append (a b : List Nat) : starts_with (a ++ b) a = true :=
  (starts_with_iff _ _).2 (List.prefix_append a b)

theorem strstr_of_starts (s needle : List Nat) (h : starts_with s needle = true) :
    strstr s needle = some 0 := by
  cases s with
  | nil =>
    cases needle with
    | nil => simp [strstr]
    | cons d needle => simp [starts_with] at h
  | cons c s => simp [strstr, h]

theorem strstr_eq_none_iff (s needle : List Nat) : strstr s needle = none ↔ ¬ needle <:+: s := by
  induction s with
  | nil =>
    cases needle with
    | nil => simp [strstr]
    | cons d needle => simp [strstr]
  | cons c s ih =>
    simp only [strstr, List.infix_cons_iff, not_or]
    by_cases h : starts_with (c :: s) needle = true
    · simp [h, (starts_with_iff _ _).1 h]
    · have h2 : ¬ needle <+: c :: s := fun hp => h ((starts_with_iff _ _).2 hp)
      simp [h, h2, ih]

theorem strstr_char (pre post : List Nat) (c : Nat) (h : c ∉ pre) :
    strstr (pre ++ c :: post) [c] = some pre.length := by
  induction pre with
  | nil => simp [strstr, starts_with]
  | cons a pre ih =>
    have ha : ¬ a = c := fun e => h (by simp [e])
    have hc : c ∉ pre := fun e => h (by simp [e])
    simp [strstr, starts_with, ha, ih hc]

theorem strstr_char_none (s : List Nat) (c : Nat) (h : c ∉ s) : strstr s [c] = none := by
  rw [strstr_eq_none_iff]
  rintro ⟨a, b, hab⟩
  exact h (by rw [← hab]; simp)

theorem takeWhile_append_all {p : Nat → Bool} (a b : List Nat) (h : ∀ c ∈ a, p c = true) :
    (a ++ b).takeWhile p = a ++ b.takeWhile p := by
  induction a with
  | nil => rfl
  | cons x a ih =>
    have hx : p x = true := h x (by simp)
    simp [List.takeWhile, hx, ih (fun c hc => h c (by simp [hc]))]

theorem takeWhile_stop {p : Nat → Bool} (a b : List Nat) (d : Nat) (h : ∀ c ∈ a, p c = true)
    (hd : p d = false) : (a ++ d :: b).takeWhile p = a := by
  rw [takeWhile_append_all a _ h]
  simp [List.takeWhile, hd]

theorem cstring_append (pre rest : List Nat) (hpre : ∀ c ∈ pre, c ≠ 0) (hrest : 0 ∈ rest) :
    cstring (pre ++ rest) = .ok (pre ++ rest.takeWhile (fun c => c ≠ 0)) := by
  have h0 : (0 : Nat) ∈ pre ++ rest := by simp [hrest]
  rw [cstring, if_pos h0, takeWhile_append_all pre rest (by simpa using hpre)]

theorem strtok_token (tok rest delims : List Nat) (d : Nat) (hne : tok ≠ [])
    (hfree : ∀ c ∈ tok, c ∉ delims) (hd : d ∈ delims) :
    strtok (tok ++ d :: rest) delims = (some tok, some tok.length, rest) := by
  obtain ⟨x, tl, rfl⟩ := List.exists_cons_of_ne_nil hne
  have hx : x ∉ delims := hfree x (by simp)
  have h1 : ((x :: tl ++ d :: rest).takeWhile (fun c => decide (c ∈ delims))) = [] := by
    simp [List.takeWhile, hx]
  have h2 : ((x :: tl ++ d :: rest).takeWhile (fun c => decide (c ∉ delims))) = x :: tl :=
    takeWhile_stop (x :: tl) rest d (by simpa using hfree) (by simpa using hd)
  simp only [strtok, h1, List.length_nil, List.drop_zero, h2, Nat.zero_add]
  rw [List.drop_left]

theorem parse_req_start_line_unfold (usable : Nat → Nat) (MAX_QUERY_PARAMS : Nat)
    (fresh : List Fdata)
    (client : ClientState) (r : Int) (s : List Nat)
    (hfind : find_network_newline client.buf client.num_bytes = .ok r) (hr : r ≠ -1)
    (hs : cstring client.buf = .ok s) :
    parse_req_start_line usable MAX_QUERY_PARAMS fresh client =
      (if strstr s GET = none then
          if strstr s POST = none then Outcome.exit 1 else Outcome.ok POST
        else Outcome.ok GET).bind fun start =>
        (match strstr s (bytes "?") with
          | some q => parse_query usable MAX_QUERY_PARAMS fresh (s.drop (q + 1))
          | none => Outcome.ok fresh).bind fun params =>
          match strstr s (bytes "/") with
          | none => Outcome.exit 1
          | some t =>
            match strtok (s.drop t) (bytes " ?") with
            | (none, _, _) => Outcome.undefined
            | (some target, stop, _) =>
              .ok (1, { client with
                buf := match stop with
                  | some k => client.buf.set (t + k) 0
                  | none => client.buf
                reqData := some { method := start, path := target, params := params } }) := by
  simp only [parse_req_start_line, hfind, ok_bind, hr, if_false, hs]

theorem strtok_head (pre tl delims : List Nat) (hne : pre ≠ [])
    (hfree : ∀ c ∈ pre, c ∉ delims) :
    ∃ stop rest, strtok (pre ++ tl) delims =
      (some (pre ++ tl.takeWhile (fun c => decide (c ∉ delims))), stop, rest) := by
  obtain ⟨x, xs, rfl⟩ := List.exists_cons_of_ne_nil hne
  have hx : x ∉ delims := hfree x (by simp)
  have h1 : ((x :: xs ++ tl).takeWhile (fun c => decide (c ∈ delims))) = [] := by
    simp [List.takeWhile, hx]
  have h2 : ((x :: xs ++ tl).takeWhile (fun c => decide (c ∉ delims))) =
      x :: xs ++ tl.takeWhile (fun c => decide (c ∉ delims)) :=
    takeWhile_append_all (x :: xs) tl (by simpa using hfree)
  simp only [strtok, h1, List.length_nil, List.drop_zero, h2, Nat.zero_add]
  simp only [List.cons_append]
  cases List.drop (x :: (xs ++ tl.takeWhile (fun c => decide (c ∉ delims)))).length
      (x :: (xs ++ tl)) with
  | nil => exact ⟨_, _, rfl⟩
  | cons y ys => exact ⟨_, _, rfl⟩

/-- What follows a value in the query text, up to the text `T` after the
space that ends the query. -/
theorem query_string_cons (p : List Nat × List Nat) (ps : List (List Nat × List Nat))
    (T : List Nat) :
    query_string (p :: ps) ++ 32 :: T =
      p.1 ++ 61 :: (p.2 ++ after_value ps T) := by
  cases ps with
  | nil => simp [query_string, after_value]
  | cons q qs => simp [query_string, after_value]

theorem set_at_length (done todo : List Fdata) (x y : Fdata) :
    (done ++ x :: todo).set done.length y = done ++ y :: todo := by
  induction done with
  | nil => rfl
  | cons a done ih => simp [List.set, ih]

theorem clear_params_all (n : Nat) : ∀ (index : Nat) (done todo : List Fdata),
    done.length = index → todo.length = n →
    clear_params n index (done ++ todo) = done ++ List.replicate n ⟨none, none⟩ := by
  induction n with
  | zero =>
    intro index done todo _ h2
    simp [clear_params, List.length_eq_zero.1 h2]
  | succ n ih =>
    intro index done todo h1 h2
    obtain ⟨x, todo1, rfl⟩ := List.exists_cons_of_ne_nil (l := todo) (by
      intro e; rw [e] at h2; simp at h2)
    simp only [clear_params]
    rw [← h1, set_at_length]
    have h3 := ih (done.length + 1) (done ++ [⟨none, none⟩]) todo1 (by simp) (by simpa using h2)
    simp only [List.append_assoc, List.singleton_append] at h3
    rw [h3, List.replicate_succ]

theorem copy_token_fits (usable : Nat → Nat) (t : List Nat)
    (h : t.length + 1 ≤ usable t.length) : copy_token usable t = .ok t := by
  simp [copy_token, h]

theorem parse_query_loop_pairs (usable : Nat → Nat) (T : List Nat) :
    ∀ (ps : List (List Nat × List Nat)) (p : List Nat × List Nat) (fuel index : Nat)
      (done todo : List Fdata),
      query_pair p → (∀ q ∈ ps, query_pair q) →
      pair_fits usable p → (∀ q ∈ ps, pair_fits usable q) → done.length = index →
      ps.length + 1 ≤ fuel → ps.length + 1 ≤ todo.length →
      parse_query_loop usable fuel index (some p.1)
          (p.2 ++ after_value ps (bytes "HTTP/" ++ T)) (done ++ todo) =
        .ok (index + (ps.length + 1), done ++ slots_of (p :: ps) ++ todo.drop (ps.length + 1)) := by
  intro ps
  induction ps with
  | nil =>
    intro p fuel index done todo hp _ hfp _ hdone hfuel htodo
    have hcn := copy_token_fits usable p.1 hfp.1
    have hcv := copy_token_fits usable p.2 hfp.2
    obtain ⟨f, rfl⟩ : ∃ f, fuel = f + 1 := ⟨fuel - 1, by simp at hfuel; omega⟩
    obtain ⟨x, todo1, rfl⟩ := List.exists_cons_of_ne_nil (l := todo) (by
      intro e; rw [e] at htodo; simp at htodo)
    obtain ⟨hn1, hv1, hn2, hv2, hhttp⟩ := hp
    have hname : strstr p.1 (bytes "HTTP") = none := (strstr_eq_none_iff _ _).2 hhttp
    have hval : strtok (p.2 ++ 32 :: (bytes "HTTP/" ++ T)) (bytes "& ") =
        (some p.2, some p.2.length, bytes "HTTP/" ++ T) :=
      strtok_token p.2 _ (bytes "& ") 32 hv1
        (fun c hc hmem => hv2 c hc (by
          have : c = 38 ∨ c = 32 := by simpa [bytes] using hmem
          rcases this with h | h <;> simp [h])) (by decide)
    obtain ⟨stop, rest, hnext⟩ := strtok_head (bytes "HTTP/") T (bytes "= ") (by decide) (by decide)
    rw [show after_value [] (bytes "HTTP/" ++ T) = 32 :: (bytes "HTTP/" ++ T) from rfl]
    simp only [parse_query_loop, hname, ne_eq, not_true_eq_false, if_false, hcn, ok_bind, hval,
      hcv, hnext]
    rw [← hdone, set_at_length]
    cases f with
    | zero => simp [parse_query_loop, slots_of]
    | succ f =>
      have hstop : strstr (bytes "HTTP/" ++ T.takeWhile (fun c => decide (c ∉ bytes "= ")))
          (bytes "HTTP") ≠ none := by
        have e : bytes "HTTP/" = bytes "HTTP" ++ bytes "/" := by decide
        rw [e, List.append_assoc, strstr_of_starts _ _ (starts_with_append _ _)]
        simp
      simp only [parse_query_loop, hstop, if_true, ne_eq, not_false_eq_true]
      simp [slots_of]
  | cons q qs ih =>
    intro p fuel index done todo hp hps hfp hfps hdone hfuel htodo
    have hcn := copy_token_fits usable p.1 hfp.1
    have hcv := copy_token_fits usable p.2 hfp.2
    obtain ⟨f, rfl⟩ : ∃ f, fuel = f + 1 := ⟨fuel - 1, by simp at hfuel; omega⟩
    obtain ⟨x, todo1, rfl⟩ := List.exists_cons_of_ne_nil (l := todo) (by
      intro e; rw [e] at htodo; simp at htodo)
    obtain ⟨hn1, hv1, hn2, hv2, hhttp⟩ := hp
    have hq : query_pair q := hps q (by simp)
    have hname : strstr p.1 (bytes "HTTP") = none := (strstr_eq_none_iff _ _).2 hhttp
    have hval : strtok (p.2 ++ 38 :: (query_string (q :: qs) ++ 32 :: (bytes "HTTP/" ++ T)))
        (bytes "& ") =
        (some p.2, some p.2.length, query_string (q :: qs) ++ 32 :: (bytes "HTTP/" ++ T)) :=
      strtok_token p.2 _ (bytes "& ") 38 hv1
        (fun c hc hmem => hv2 c hc (by
          have : c = 38 ∨ c = 32 := by simpa [bytes] using hmem
          rcases this with h | h <;> simp [h])) (by decide)
    have hnext : strtok (query_string (q :: qs) ++ 32 :: (bytes "HTTP/" ++ T)) (bytes "= ") =
        (some q.1, some q.1.length, q.2 ++ after_value qs (bytes "HTTP/" ++ T)) := by
      rw [query_string_cons]
      exact strtok_token q.1 _ (bytes "= ") 61 hq.1
        (fun c hc hmem => hq.2.2.1 c hc (by
          have : c = 61 ∨ c = 32 := by simpa [bytes] using hmem
          rcases this with h | h <;> simp [h])) (by decide)
    rw [show after_value (q :: qs) (bytes "HTTP/" ++ T) =
      38 :: (query_string (q :: qs) ++ 32 :: (bytes "HTTP/" ++ T)) from rfl]
    simp only [parse_query_loop, hname, ne_eq, not_true_eq_false, if_false, hcn, ok_bind, hval,
      hcv, hnext]
    rw [← hdone, set_at_length]
    have h := ih q f (done.length + 1) (done ++ [⟨some p.1, some p.2⟩]) todo1 hq
      (fun r hr => hps r (by simp [hr])) (hfps q (by simp)) (fun r hr => hfps r (by simp [hr]))
      (by simp) (by simp at hfuel; omega)
      (by simp at htodo; omega)
    simp only [List.append_assoc, List.singleton_append] at h
    rw [h]
    simp [slots_of]
    omega

theorem parse_query_pairs (usable : Nat → Nat) (MAX_QUERY_PARAMS : Nat) (fresh : List Fdata)
    (pairs : List (List Nat × List Nat)) (T : List Nat)
    (hfresh : fresh.length = MAX_QUERY_PARAMS) (hk1 : 1 ≤ pairs.length)
    (hk2 : pairs.length ≤ MAX_QUERY_PARAMS) (hpairs : ∀ p ∈ pairs, query_pair p)
    (hfit : ∀ p ∈ pairs, pair_fits usable p) :
    parse_query usable MAX_QUERY_PARAMS fresh (query_string pairs ++ 32 :: (bytes "HTTP/" ++ T)) =
      .ok (slots_of pairs ++ List.replicate (MAX_QUERY_PARAMS - pairs.length) ⟨none, none⟩) := by
  obtain ⟨p, ps, rfl⟩ := List.exists_cons_of_ne_nil (l := pairs) (by
    intro e; rw [e] at hk1; simp at hk1)
  have hp : query_pair p := hpairs p (by simp)
  have hfirst : strtok (query_string (p :: ps) ++ 32 :: (bytes "HTTP/" ++ T)) (bytes "=") =
      (some p.1, some p.1.length, p.2 ++ after_value ps (bytes "HTTP/" ++ T)) := by
    rw [query_string_cons]
    exact strtok_token p.1 _ (bytes "=") 61 hp.1
      (fun c hc hmem => hp.2.2.1 c hc (by
        have : c = 61 := by simpa [bytes] using hmem
        simp [this])) (by decide)
  have hloop := parse_query_loop_pairs usable T ps p MAX_QUERY_PARAMS 0 [] fresh hp
    (fun q hq => hpairs q (by simp [hq])) (hfit p (by simp)) (fun q hq => hfit q (by simp [hq]))
    rfl (by simpa using hk2) (by rw [hfresh]; simpa using hk2)
  simp only [List.nil_append] at hloop
  simp only [parse_query, hfirst, hloop, ok_bind, Nat.zero_add]
  have hlen : (slots_of (p :: ps)).length = ps.length + 1 := by simp [slots_of]
  by_cases hk : ps.length + 1 = MAX_QUERY_PARAMS
  · rw [if_neg (not_not.2 hk)]
    have : fresh.drop (ps.length + 1) = [] := by
      rw [List.drop_eq_nil_iff, hfresh, hk]
    simp [this, hk, hfresh]
  · rw [if_pos hk]
    rw [clear_params_all _ _ _ _ hlen (by rw [List.length_drop, hfresh])]
    simp


/-! ## The request line with a query -/

theorem query_string_mem (pairs : List (List Nat × List Nat)) :
    ∀ c ∈ query_string pairs, c = 61 ∨ c = 38 ∨ ∃ p ∈ pairs, c ∈ p.1 ∨ c ∈ p.2 := by
  induction pairs with
  | nil => simp [query_string]
  | cons p ps ih =>
    intro c hc
    cases ps with
    | nil =>
      simp only [query_string, List.mem_append, List.mem_cons] at hc
      rcases hc with h | h | h
      · exact Or.inr (Or.inr ⟨p, by simp, Or.inl h⟩)
      · exact Or.inl h
      · exact Or.inr (Or.inr ⟨p, by simp, Or.inr h⟩)
    | cons q qs =>
      simp only [query_string, List.mem_append, List.mem_cons] at hc
      rcases hc with (h | h | h) | h | h
      · exact Or.inr (Or.inr ⟨p, by simp, Or.inl h⟩)
      · exact Or.inl h
      · exact Or.inr (Or.inr ⟨p, by simp, Or.inr h⟩)
      · exact Or.inr (Or.inl h)
      · rcases ih c h with h1 | h1 | ⟨r, hr, h1⟩
        · exact Or.inl h1
        · exact Or.inr (Or.inl h1)
        · exact Or.inr (Or.inr ⟨r, by simp [hr], h1⟩)

theorem query_string_no_nul (pairs : List (List Nat × List Nat))
    (hpairs : ∀ p ∈ pairs, query_pair p) : ∀ c ∈ query_string pairs, c ≠ 0 := by
  intro c hc h0
  subst h0
  rcases query_string_mem pairs 0 hc with h | h | ⟨p, hp, h | h⟩
  · omega
  · omega
  · exact (hpairs p hp).2.2.1 0 h (by simp)
  · exact (hpairs p hp).2.2.2.1 0 h (by simp)

theorem method_cases {method : List Nat} (hM : method = GET ∨ method = POST) :
    (∀ c ∈ method, c ≠ 0 ∧ c ≠ 47 ∧ c ≠ 63) ∧ method ≠ [] := by
  rcases hM with h | h <;> subst h <;> decide

theorem find_network_newline_line (X rest : List Nat) (n : Int)
    (hn : ((X ++ [CR, LF]).length : Int) ≤ n) :
    ∃ r, find_network_newline (X ++ [CR, LF] ++ rest) n = .ok r ∧ r ≠ -1 := by
  classical
  have hX : crlf_at (X ++ [CR, LF] ++ rest) X.length := by
    rw [List.append_assoc]; exact crlf_at_end X rest
  have hex : ∃ i, crlf_at (X ++ [CR, LF] ++ rest) i := ⟨X.length, hX⟩
  have hle : Nat.find hex ≤ X.length := Nat.find_min' hex hX
  refine ⟨_, find_network_newline_least _ n (Nat.find hex) ?_ (Nat.find_spec hex)
    (fun j hj => Nat.find_min hex hj), by omega⟩
  simp only [List.length_append, List.length_cons, List.length_nil] at hn
  omega

theorem start_decision (method s tl : List Nat) (hM : method = GET ∨ method = POST)
    (hs : s = method ++ tl) (hget : method = POST → ¬ GET <:+: s) :
    (if strstr s GET = none then
        if strstr s POST = none then Outcome.exit 1 else Outcome.ok POST
      else Outcome.ok GET) = Outcome.ok method := by
  rcases hM with h | h
  · subst h
    rw [hs, strstr_of_starts _ _ (starts_with_append _ _)]
    rfl
  · subst h
    rw [(strstr_eq_none_iff s GET).2 (hget rfl), hs,
      strstr_of_starts _ _ (starts_with_append _ _)]
    rfl

/-- The request line with a query, when every copied terminator fits. The
array starts with the line `<METHOD> <path>?n1=v1&...&nk=vk HTTP/<version>\r\n`,
all of it among the buffered bytes, and holds a NUL somewhere after it; METHOD
is GET or POST, the path begins with `/` and has no space, `?` or NUL,
`1 <= k <= MAX_QUERY_PARAMS`, every name and value is non-empty and free of
space, `?`, `=`, `&`, CR, LF and NUL, no name contains `HTTP`, the NUL that ends
each copied name and value falls inside its block, and when METHOD is POST the
text `GET` occurs nowhere in the array before its first NUL. Then
`parse_req_start_line` returns 1, attaches the descriptor with method METHOD,
the path, the `k` pairs in order in the first `k` slots and every other slot
unset, and overwrites the `?` after the path with NUL. -/
theorem parse_req_start_line_query (usable : Nat → Nat) (MAX_QUERY_PARAMS : Nat)
    (fresh : List Fdata)
    (sock n : Int) (old : Option ReqData) (method path version rest : List Nat)
    (pairs : List (List Nat × List Nat))
    (hfresh : fresh.length = MAX_QUERY_PARAMS)
    (hM : method = GET ∨ method = POST)
    (hslash : ∃ p, path = 47 :: p)
    (hpath : ∀ c ∈ path, c ≠ 32 ∧ c ≠ 63 ∧ c ≠ 0)
    (hk1 : 1 ≤ pairs.length) (hk2 : pairs.length ≤ MAX_QUERY_PARAMS)
    (hpairs : ∀ p ∈ pairs, query_pair p) (hfit : ∀ p ∈ pairs, pair_fits usable p)
    (hver : 0 ∉ version) (hrest : 0 ∈ rest)
    (hn : ((request_line_query method path pairs version).length : Int) ≤ n)
    (hget : method = POST → ¬ GET <:+:
      (request_line_query method path pairs version ++ rest).takeWhile (fun c => c ≠ 0)) :
    parse_req_start_line usable MAX_QUERY_PARAMS fresh
        ⟨sock, request_line_query method path pairs version ++ rest, n, old⟩ =
      .ok (1, ⟨sock,
        (request_line_query method path pairs version ++ rest).set
          (method.length + 1 + path.length) 0,
        n,
        some ⟨method, path,
          slots_of pairs ++ List.replicate (MAX_QUERY_PARAMS - pairs.length) ⟨none, none⟩⟩⟩) := by
  obtain ⟨hmeth, -⟩ := method_cases hM
  obtain ⟨p, hp⟩ := hslash
  have hline0 : ∀ c ∈ request_line_query method path pairs version, c ≠ 0 := by
    intro c hc
    simp only [request_line_query, List.mem_append, List.mem_cons] at hc
    rcases hc with ((((h | h | h) | h | h) | h) | h) | h
    · exact (hmeth c h).1
    · omega
    · exact (hpath c h).2.2
    · omega
    · exact query_string_no_nul pairs hpairs c h
    · revert h; revert c; decide
    · intro e; exact hver (e ▸ h)
    · rcases h with h | h | h
      · rw [h]; decide
      · rw [h]; decide
      · simp at h
  have hcs := cstring_append _ rest hline0 hrest
  have htw : (request_line_query method path pairs version ++ rest).takeWhile (fun c => c ≠ 0) =
      request_line_query method path pairs version ++ rest.takeWhile (fun c => c ≠ 0) :=
    takeWhile_append_all _ rest (by simpa using hline0)
  rw [htw] at hget
  obtain ⟨r, hfind, hr⟩ : ∃ r, find_network_newline
      (request_line_query method path pairs version ++ rest) n = .ok r ∧ r ≠ -1 := by
    have := find_network_newline_line
      (method ++ 32 :: path ++ 63 :: query_string pairs ++ bytes " HTTP/" ++ version) rest n hn
    exact this
  rw [parse_req_start_line_unfold usable MAX_QUERY_PARAMS fresh _ r _ hfind hr hcs]
  generalize hT : version ++ CR :: LF :: rest.takeWhile (fun c => c ≠ 0) = T
  have hsp : bytes " HTTP/" = 32 :: bytes "HTTP/" := by decide
  have form1 : request_line_query method path pairs version ++ rest.takeWhile (fun c => c ≠ 0) =
      (method ++ 32 :: path) ++ 63 :: (query_string pairs ++ 32 :: (bytes "HTTP/" ++ T)) := by
    simp [request_line_query, hsp, ← hT]
  have form2 : request_line_query method path pairs version ++ rest.takeWhile (fun c => c ≠ 0) =
      (method ++ [32]) ++ 47 :: (p ++ 63 :: (query_string pairs ++ 32 :: (bytes "HTTP/" ++ T))) := by
    rw [form1, hp]; simp
  have form3 : request_line_query method path pairs version ++ rest.takeWhile (fun c => c ≠ 0) =
      method ++ (32 :: path ++ 63 :: (query_string pairs ++ 32 :: (bytes "HTTP/" ++ T))) := by
    rw [form1]; simp
  rw [start_decision method _ _ hM form3 hget, ok_bind]
  have hq : strstr (request_line_query method path pairs version ++
      rest.takeWhile (fun c => c ≠ 0)) (bytes "?") = some (method ++ 32 :: path).length := by
    rw [form1]
    apply strstr_char
    intro hmem
    rcases List.mem_append.1 hmem with h | h
    · exact (hmeth 63 h).2.2 rfl
    · rcases List.mem_cons.1 h with h | h
      · omega
      · exact (hpath 63 h).2.1 rfl
  have hsl : strstr (request_line_query method path pairs version ++
      rest.takeWhile (fun c => c ≠ 0)) (bytes "/") = some (method ++ [32]).length := by
    rw [form2]
    apply strstr_char
    intro hmem
    rcases List.mem_append.1 hmem with h | h
    · exact (hmeth 47 h).2.1 rfl
    · simp at h
  have hdq : (request_line_query method path pairs version ++
      rest.takeWhile (fun c => c ≠ 0)).drop ((method ++ 32 :: path).length + 1) =
      query_string pairs ++ 32 :: (bytes "HTTP/" ++ T) := by
    rw [form1, List.drop_append_eq_append_drop]
    simp
  have hds : (request_line_query method path pairs version ++
      rest.takeWhile (fun c => c ≠ 0)).drop (method ++ [32]).length =
      path ++ 63 :: (query_string pairs ++ 32 :: (bytes "HTTP/" ++ T)) := by
    rw [form2, List.drop_left, hp]; simp
  have htok : strtok (path ++ 63 :: (query_string pairs ++ 32 :: (bytes "HTTP/" ++ T)))
      (bytes " ?") = (some path, some path.length,
        query_string pairs ++ 32 :: (bytes "HTTP/" ++ T)) :=
    strtok_token path _ (bytes " ?") 63 (by rw [hp]; simp)
      (fun c hc hmem => by
        have h2 : c = 32 ∨ c = 63 := by simpa [bytes] using hmem
        rcases h2 with h | h
        · exact (hpath c hc).1 h
        · exact (hpath c hc).2.1 h) (by decide)
  simp only [hq, hdq, parse_query_pairs usable MAX_QUERY_PARAMS fresh pairs T hfresh hk1 hk2 hpairs hfit,
    ok_bind, hsl, hds, htok]
  simp [Nat.add_assoc]


/-! ## The copies of names and values -/

/-- C1 (failing input). The line `GET /s?a=vvvvvvvvvvvvvvvvvvvvvvvv HTTP/1.1\r\n`
has the claimed form, its one value being 24 bytes long. `parse_query` asks
`malloc` for `strlen(token)` bytes and `strcpy` writes one byte more, the NUL.
On 64-bit glibc a block asked for with 24 bytes has 24 usable bytes, so the NUL
of this value is written outside its block and the call has no defined result,
where the claim promises the pair `a`, `vvvvvvvvvvvvvvvvvvvvvvvv` in slot 0.
With an allocator that gives just the bytes asked for, the same holds for the
claim's own example; with one more byte in every block the 24-byte input gives
what the claim says. -/
theorem parse_req_start_line_query_value_outside_block :
    request_line_query GET (bytes "/s") [(bytes "a", List.replicate 24 118)] (bytes "1.1") =
      bytes "GET /s?a=vvvvvvvvvvvvvvvvvvvvvvvv HTTP/1.1\r\n" ∧
    query_pair (bytes "a", List.replicate 24 118) ∧
    usable_size_glibc 24 = 24 ∧
    copy_token usable_size_glibc (List.replicate 24 118) = .undefined ∧
    parse_req_start_line usable_size_glibc 5 (unset_params 5)
        ⟨3, buffer_of 64 "GET /s?a=vvvvvvvvvvvvvvvvvvvvvvvv HTTP/1.1\r\n", 44, none⟩ =
      .undefined ∧
    parse_req_start_line (fun n => n) 5 (unset_params 5)
        ⟨3, buffer_of 64 "GET /search?name1=val1&name2=val2 HTTP/1.1\r\n", 44, none⟩ =
      .undefined ∧
    parse_req_start_line (fun n => n + 1) 5 (unset_params 5)
        ⟨3, buffer_of 64 "GET /s?a=vvvvvvvvvvvvvvvvvvvvvvvv HTTP/1.1\r\n", 44, none⟩ =
      .ok (1, ⟨3, buffer_of 64 "GET /s\x00a=vvvvvvvvvvvvvvvvvvvvvvvv HTTP/1.1\r\n", 44,
        some ⟨GET, bytes "/s", [⟨some (bytes "a"), some (List.replicate 24 118)⟩,
          ⟨none, none⟩, ⟨none, none⟩, ⟨none, none⟩, ⟨none, none⟩]⟩⟩) := by
  decide

/-! ## The request line without a query -/

/-- The request line without a query. The array starts with the line
`<METHOD> <path> HTTP/<version>\r\n`, all of it among the buffered bytes, and
holds a NUL somewhere after it; METHOD is GET or POST, the path begins with `/`
and has no space or NUL, no `?` occurs anywhere in the array before its first
NUL, and when METHOD is POST the text `GET` occurs nowhere there either. Then
`parse_req_start_line` returns 1 with method METHOD and the path, overwrites
the space after the path with NUL, and never writes the parameter slots: they
are as the allocation held them. -/
theorem parse_req_start_line_no_query (usable : Nat → Nat) (MAX_QUERY_PARAMS : Nat)
    (fresh : List Fdata)
    (sock n : Int) (old : Option ReqData) (method path version rest : List Nat)
    (hM : method = GET ∨ method = POST)
    (hslash : ∃ p, path = 47 :: p)
    (hpath : ∀ c ∈ path, c ≠ 32 ∧ c ≠ 0)
    (hver : 0 ∉ version) (hrest : 0 ∈ rest)
    (hn : ((request_line method path version).length : Int) ≤ n)
    (hget : method = POST → ¬ GET <:+:
      (request_line method path version ++ rest).takeWhile (fun c => c ≠ 0))
    (hquery : 63 ∉ (request_line method path version ++ rest).takeWhile (fun c => c ≠ 0)) :
    parse_req_start_line usable MAX_QUERY_PARAMS fresh
        ⟨sock, request_line method path version ++ rest, n, old⟩ =
      .ok (1, ⟨sock,
        (request_line method path version ++ rest).set (method.length + 1 + path.length) 0, n,
        some ⟨method, path, fresh⟩⟩) := by
  obtain ⟨hmeth, -⟩ := method_cases hM
  obtain ⟨p, hp⟩ := hslash
  have hline0 : ∀ c ∈ request_line method path version, c ≠ 0 := by
    intro c hc
    simp only [request_line, List.mem_append, List.mem_cons] at hc
    rcases hc with (((h | h | h) | h) | h) | h
    · exact (hmeth c h).1
    · omega
    · exact (hpath c h).2
    · revert h; revert c; decide
    · intro e; exact hver (e ▸ h)
    · rcases h with h | h | h
      · rw [h]; decide
      · rw [h]; decide
      · simp at h
  have hcs := cstring_append _ rest hline0 hrest
  have htw : (request_line method path version ++ rest).takeWhile (fun c => c ≠ 0) =
      request_line method path version ++ rest.takeWhile (fun c => c ≠ 0) :=
    takeWhile_append_all _ rest (by simpa using hline0)
  rw [htw] at hget hquery
  obtain ⟨r, hfind, hr⟩ : ∃ r, find_network_newline
      (request_line method path version ++ rest) n = .ok r ∧ r ≠ -1 :=
    find_network_newline_line (method ++ 32 :: path ++ bytes " HTTP/" ++ version) rest n hn
  rw [parse_req_start_line_unfold usable MAX_QUERY_PARAMS fresh _ r _ hfind hr hcs]
  generalize hT : version ++ CR :: LF :: rest.takeWhile (fun c => c ≠ 0) = T
  have hsp : bytes " HTTP/" = 32 :: bytes "HTTP/" := by decide
  have form2 : request_line method path version ++ rest.takeWhile (fun c => c ≠ 0) =
      (method ++ [32]) ++ 47 :: (p ++ 32 :: (bytes "HTTP/" ++ T)) := by
    simp [request_line, hsp, ← hT, hp]
  have form3 : request_line method path version ++ rest.takeWhile (fun c => c ≠ 0) =
      method ++ (32 :: path ++ 32 :: (bytes "HTTP/" ++ T)) := by
    rw [form2, hp]; simp
  have hq1 : strstr (request_line method path version ++
      rest.takeWhile (fun c => c ≠ 0)) (bytes "?") = none := strstr_char_none _ 63 hquery
  rw [start_decision method _ _ hM form3 hget, ok_bind, hq1]
  have hsl : strstr (request_line method path version ++
      rest.takeWhile (fun c => c ≠ 0)) (bytes "/") = some (method ++ [32]).length := by
    rw [form2]
    apply strstr_char
    intro hmem
    rcases List.mem_append.1 hmem with h | h
    · exact (hmeth 47 h).2.1 rfl
    · simp at h
  have hds : (request_line method path version ++
      rest.takeWhile (fun c => c ≠ 0)).drop (method ++ [32]).length =
      path ++ 32 :: (bytes "HTTP/" ++ T) := by
    rw [form2, List.drop_left, hp]; simp
  have htok : strtok (path ++ 32 :: (bytes "HTTP/" ++ T)) (bytes " ?") =
      (some path, some path.length, bytes "HTTP/" ++ T) :=
    strtok_token path _ (bytes " ?") 32 (by rw [hp]; simp)
      (fun c hc hmem => by
        have h2 : c = 32 ∨ c = 63 := by simpa [bytes] using hmem
        rcases h2 with h | h
        · exact (hpath c hc).1 h
        · subst h
          apply hquery
          rw [form3]
          simp [hc]) (by decide)
  simp only [ok_bind, hsl, hds, htok]
  simp [Nat.add_assoc]

/-- C2 (failing input). The array holds the claim's own example,
`POST /upload HTTP/1.1\r\n`, and nothing else. No `?` is found, `parse_query` is
not called, and nothing else writes `params`: for every content `fresh` of the
block that `malloc` returned, the call returns 1 with method `POST`, path
`/upload` and the slots `fresh`, not NULL. -/
theorem parse_req_start_line_no_query_slots_uninitialised (fresh : List Fdata) :
    parse_req_start_line usable_size_glibc 5 fresh
        ⟨3, buffer_of 64 "POST /upload HTTP/1.1\r\n", 23, none⟩ =
      .ok (1, ⟨3, buffer_of 64 "POST /upload\x00HTTP/1.1\r\n", 23,
        some ⟨POST, bytes "/upload", fresh⟩⟩) := by
  have h := parse_req_start_line_no_query usable_size_glibc 5 fresh 3 23 none POST
    (bytes "/upload") (bytes "1.1") (List.replicate 41 0) (Or.inr rfl)
    ⟨bytes "upload", by decide⟩ (by decide) (by decide) (by decide) (by decide)
    (by intro _; decide) (by decide)
  have e1 : request_line POST (bytes "/upload") (bytes "1.1") ++ List.replicate 41 0 =
      buffer_of 64 "POST /upload HTTP/1.1\r\n" := by decide
  have e2 : (buffer_of 64 "POST /upload HTTP/1.1\r\n").set
      (POST.length + 1 + (bytes "/upload").length) 0 =
      buffer_of 64 "POST /upload\x00HTTP/1.1\r\n" := by decide
  rw [e1, e2] at h
  exact h


/-! ## The boundary header -/

theorem strncmp_literal (h : List Nat) (hh : ∀ c ∈ h, c ≠ 0) :
    ∀ b : List Nat, h.length ≤ b.length →
      ∃ r, strncmp (h ++ [0]) b h.length = .ok r ∧ (r = 0 ↔ h <+: b) := by
  induction h with
  | nil => intro b _; exact ⟨0, by simp [strncmp], by simp⟩
  | cons x h ih =>
    intro b hb
    cases b with
    | nil => simp at hb
    | cons y b =>
      have hx : x ≠ 0 := hh x (by simp)
      by_cases hxy : x = y
      · subst hxy
        obtain ⟨r, h1, h2⟩ := ih (fun c hc => hh c (by simp [hc])) b (by simpa using hb)
        refine ⟨r, ?_, ?_⟩
        · simp [strncmp, hx, h1]
        · rw [h2, List.cons_prefix_cons]; simp
      · refine ⟨(x : Int) - (y : Int), ?_, ?_⟩
        · simp [strncmp, hxy]
        · rw [List.cons_prefix_cons]
          constructor
          · intro h0; exact absurd (by omega) hxy
          · rintro ⟨h0, -⟩; exact absurd h0 hxy

theorem strn_head_append (a : List Nat) (ha : ∀ c ∈ a, c ≠ 0) (b : List Nat) (k : Nat) :
    strn_head (a ++ b) (a.length + k) = (strn_head b k).bind fun s => .ok (a ++ s) := by
  induction a with
  | nil =>
    simp only [List.nil_append, List.length_nil, Nat.zero_add]
    cases strn_head b k <;> rfl
  | cons x a ih =>
    have hx : x ≠ 0 := ha x (by simp)
    have e : (x :: a).length + k = (a.length + k) + 1 := by simp; omega
    rw [e]
    show strn_head (x :: (a ++ b)) (a.length + k + 1) = _
    rw [strn_head, if_neg hx, ih (fun c hc => ha c (by simp [hc]))]
    cases strn_head b k <;> rfl

theorem no_crlf_before (l tail : List Nat) (hl : ∀ i, i + 1 < l.length → ¬ crlf_at l i)
    (j : Nat) (hj : j < l.length) : ¬ crlf_at (l ++ CR :: LF :: tail) j := by
  rintro ⟨h1, h2⟩
  by_cases hj2 : j + 1 < l.length
  · apply hl j hj2
    rw [List.getElem?_append_left hj] at h1
    rw [List.getElem?_append_left hj2] at h2
    exact ⟨h1, h2⟩
  · have e : j + 1 = l.length := by omega
    rw [e, List.getElem?_append_right (le_refl _)] at h2
    simp [CR, LF] at h2

theorem find_network_newline_first_line (l tail : List Nat) (n : Int)
    (hl : ∀ i, i + 1 < l.length → ¬ crlf_at l i) (hn : (l.length : Int) + 2 ≤ n) :
    find_network_newline (l ++ CR :: LF :: tail) n = .ok ((l.length : Int) + 2) :=
  find_network_newline_least _ n l.length (by omega) (crlf_at_end l tail)
    (fun j hj => no_crlf_before l tail hl j hj)

theorem removed_bytes (buf : List Nat) (e N M k : Nat) (hlen : buf.length = M) (hN : N ≤ M)
    (hk : k < N - e) :
    ((buf.drop e).take (N - e) ++ List.replicate (M - (N - e)) 0)[k]? = buf[e + k]? := by
  rw [List.getElem?_append_left (by
    simp only [List.length_take, List.length_drop, hlen]; omega)]
  rw [List.getElem?_take_of_lt hk, List.getElem?_drop]

theorem remove_client_loop_ok : ∀ (fuel i : Nat) (params : List Fdata),
    i + fuel ≤ params.length → ∃ r, remove_client_loop fuel i params = .ok r := by
  intro fuel
  induction fuel with
  | zero => intro i params _; exact ⟨params, rfl⟩
  | succ fuel ih =>
    intro i params h
    have hi : params[i]? = some params[i] := List.getElem?_eq_getElem (by omega)
    simp only [remove_client_loop, hi]
    by_cases hname : params[i].name ≠ none
    · rw [if_pos hname]
      exact ih (i + 1) _ (by rw [List.length_set]; omega)
    · rw [if_neg hname]
      exact ⟨params, rfl⟩

/-- C17. For every connection state, with a descriptor (whose parameter array
has its `MAX_QUERY_PARAMS` slots) or without one, `remove_client` returns
normally and leaves `sock = -1`, `num_bytes = 0` and `reqData = NULL`, the
array untouched; run again on the result it returns the same state. -/
theorem remove_client_resets (MAX_QUERY_PARAMS : Nat) (cs : ClientState)
    (hparams : ∀ rd, cs.reqData = some rd → rd.params.length = MAX_QUERY_PARAMS) :
    ∃ cs1, remove_client MAX_QUERY_PARAMS cs = .ok cs1 ∧
      cs1.sock = -1 ∧ cs1.num_bytes = 0 ∧ cs1.reqData = none ∧ cs1.buf = cs.buf ∧
      remove_client MAX_QUERY_PARAMS cs1 = .ok cs1 := by
  refine ⟨{ cs with reqData := none, sock := -1, num_bytes := 0 }, ?_, rfl, rfl, rfl, rfl, rfl⟩
  cases hrd : cs.reqData with
  | none => simp [remove_client, hrd]
  | some rd =>
    obtain ⟨r, hr⟩ := remove_client_loop_ok MAX_QUERY_PARAMS 0 rd.params
      (by rw [hparams rd hrd]; omega)
    simp [remove_client, hrd, hr]

/-- Witness for C17: a connection that never had a request parsed
(`reqData = NULL`) is released without failure, and so is the result. -/
theorem remove_client_resets_witness :
    ∃ cs1, remove_client 5 ⟨7, buffer_of 8 "abc", 3, none⟩ = .ok cs1 ∧
      cs1.sock = -1 ∧ cs1.num_bytes = 0 ∧ cs1.reqData = none ∧
      cs1.buf = buffer_of 8 "abc" ∧ remove_client 5 cs1 = .ok cs1 :=
  remove_client_resets 5 ⟨7, buffer_of 8 "abc", 3, none⟩ (by intro rd h; cases h)

/-! ## The line consumer without a line -/

theorem find_loop_none (buf : List Nat) : ∀ (fuel index : Nat),
    index + fuel ≤ buf.length →
    (∀ j, index ≤ j → j < index + fuel → ¬ crlf_at buf j) →
    (∀ j, index ≤ j → j < index + fuel → buf[j]? = some CR → j + 1 < buf.length) →
    find_network_newline_loop buf fuel index = .ok (-1) := by
  intro fuel
  induction fuel with
  | zero => intro index _ _ _; rfl
  | succ fuel ih =>
    intro index hlen hno hcr
    have h0 : buf[index]? = some buf[index] := List.getElem?_eq_getElem (by omega)
    have hrec := ih (index + 1) (by omega) (fun j h1 h2 => hno j (by omega) (by omega))
      (fun j h1 h2 => hcr j (by omega) (by omega))
    simp only [find_network_newline_loop, load_eq h0, ok_bind]
    by_cases hc : buf[index] = CR
    · have hin := hcr index (le_refl _) (by omega) (by rw [h0, hc])
      have h1 : buf[index + 1]? = some buf[index + 1] := List.getElem?_eq_getElem hin
      have hn : buf[index + 1] ≠ LF := by
        intro hl
        exact hno index (le_refl _) (by omega) ⟨by rw [h0, hc], by rw [h1, hl]⟩
      simp [hc, load_eq h1, hn, hrec]
    · simp [hc, hrec]

/-- C18 as amended. For a connection state whose array has `MAXLINE` bytes,
with `0 < num_bytes <= MAXLINE`, in which no network newline starts within
`[0, num_bytes)` (and whose last byte is not `\r` when the array is full),
`remove_buffered_line` empties the buffer: `num_bytes` becomes 0 and every
byte of the array becomes zero, so the partial line is discarded. -/
theorem remove_buffered_line_clears_without_line (MAXLINE : Nat) (client : ClientState)
    (hlen : client.buf.length = MAXLINE) (h0 : 0 < client.num_bytes)
    (hn : client.num_bytes ≤ MAXLINE)
    (hno : ∀ i : Nat, (i : Int) < client.num_bytes → ¬ crlf_at client.buf i)
    (hlast : client.num_bytes = MAXLINE → client.buf[MAXLINE - 1]? ≠ some CR) :
    remove_buffered_line MAXLINE client =
      .ok { client with buf := List.replicate MAXLINE 0, num_bytes := 0 } := by
  obtain ⟨N, hN⟩ : ∃ N : Nat, client.num_bytes = (N : Int) := ⟨client.num_bytes.toNat, by omega⟩
  have hfind : find_network_newline client.buf client.num_bytes = .ok (-1) := by
    unfold find_network_newline
    rw [hN, Int.toNat_ofNat]
    apply find_loop_none
    · omega
    · intro j _ hj; exact hno j (by omega)
    · intro j _ hj hcr
      by_contra hc
      have hjN : j + 1 = MAXLINE := by omega
      have hNM : client.num_bytes = MAXLINE := by omega
      apply hlast hNM
      have : MAXLINE - 1 = j := by omega
      rw [this]; exact hcr
  have hne : client.num_bytes ≠ 0 := by omega
  have c : ((0 : Int) ≤ 0 ∧ (0 : Int) ≤ (MAXLINE : Int) ∧
      (0 : Int) + (MAXLINE : Int) ≤ (client.buf.length : Int)) := by omega
  simp only [remove_buffered_line, hne, if_false, hfind, bind, ok_bind, if_true, memset, c,
    and_self, pure, Int.toNat_zero, List.take_zero, List.nil_append, Int.toNat_ofNat, Nat.zero_add,
    List.drop_of_length_le (le_of_eq hlen), List.append_nil]

/-- Witness for C18 as amended: the three buffered bytes `abc` are thrown
away. -/
theorem remove_buffered_line_clears_without_line_witness :
    remove_buffered_line 16 ⟨3, buffer_of 16 "abc", 3, none⟩ =
      .ok ⟨3, List.replicate 16 0, 0, none⟩ :=
  remove_buffered_line_clears_without_line 16 ⟨3, buffer_of 16 "abc", 3, none⟩ (by decide)
    (by decide) (by decide)
    (by
      intro i hi
      have hi3 : i < 3 := by simpa using hi
      interval_cases i <;> decide)
    (by intro h; exact absurd h (by decide))

/-- Counterexample for C18: `num_bytes = 3`, the buffered bytes `abc` hold no
network newline, and after `remove_buffered_line` the buffer is not as it was:
`num_bytes` is 0 and the bytes are zero. -/
theorem remove_buffered_line_drops_partial_line :
    (∀ i, i < 3 → ¬ crlf_at (buffer_of 16 "abc") i) ∧
    ¬ ∃ client1, remove_buffered_line 16 ⟨3, buffer_of 16 "abc", 3, none⟩ = .ok client1 ∧
      client1.num_bytes = 3 ∧ client1.buf.take 3 = bytes "abc" := by
  refine ⟨by decide, ?_⟩
  rintro ⟨c1, hrun, hnum, -⟩
  have h2 : remove_buffered_line 16 ⟨3, buffer_of 16 "abc", 3, none⟩ =
      .ok ⟨3, List.replicate 16 0, 0, none⟩ := by decide
  rw [h2] at hrun
  cases hrun
  revert hnum
  decide

/-- C20 (failing input). `MAXLINE = 16`, `num_bytes = 4`, the buffered bytes
are `abc\r` and the unreadable byte at index 4 is `\n`. The scan returns 5, so
`num_bytes - new_start` is -1 and `memmove` is called with that length: the
call has no defined result, where the claim promises `0 <= num_bytes`. -/
theorem remove_buffered_line_negative_count :
    find_network_newline (buffer_of 16 "abc\r\nxyz") 4 = .ok 5 ∧
    (4 : Int) - 5 = -1 ∧
    memmove (buffer_of 16 "abc\r\nxyz") 0 5 (-1) = .undefined ∧
    remove_buffered_line 16 ⟨3, buffer_of 16 "abc\r\nxyz", 4, none⟩ = .undefined := by
  decide

/-! ## The query parser on a name without a value -/

/-- C15 (failing input). For the query section `a=1&b HTTP/1.1\r\n` with
`MAX_QUERY_PARAMS = 5`: the pair `a`, `1` is stored, then `b` is stored as a
name with the HTTP-version token as its value, and the next `strtok` returns
NULL, which is passed to `strstr`: the call has no defined result. With
`MAX_QUERY_PARAMS = 2` the loop ends first and the token stays stored as the
value of `b`. -/
theorem parse_query_name_without_value :
    parse_query usable_size_glibc 5 (unset_params 5) (bytes "a=1&b HTTP/1.1\r\n") = .undefined ∧
    parse_query usable_size_glibc 2 (unset_params 2) (bytes "a=1&b HTTP/1.1\r\n") =
      .ok [⟨some (bytes "a"), some (bytes "1")⟩,
        ⟨some (bytes "b"), some (bytes "HTTP/1.1\r\n")⟩] := by
  decide


/-! ## The file-body streamer -/

/-- C12 (failing input). `MAXLINE = 64`, boundary `--XYZ`, the buffer empty,
and one socket read delivers the payload `BM\0data` (seven bytes, one of them
zero) followed by the terminator. `strstr` stops at the zero byte and does not
see the terminator, so the whole chunk, terminator included, is written and
the loop reads on: at end of stream it never leaves the loop, whatever the
number of steps allowed; if a further terminator arrives it returns, with the
file holding the payload and the first terminator. -/
theorem save_file_upload_zero_byte_payload :
    (∀ fuel, save_file_upload 64 fuel ⟨3, List.replicate 64 0, 0, none⟩ (bytes "--XYZ")
      [some (bytes "BM\x00data" ++ bytes "\r\n--XYZ--\r\n")] [] = .fuel) ∧
    (save_file_upload 64 2 ⟨3, List.replicate 64 0, 0, none⟩ (bytes "--XYZ")
      [some (bytes "BM\x00data" ++ bytes "\r\n--XYZ--\r\n"), some (bytes "\r\n--XYZ--\r\n")]
      []).bind (fun r => .ok r.2.2.2) = .ok (bytes "BM\x00data" ++ bytes "\r\n--XYZ--\r\n") := by
  refine ⟨?_, by decide⟩
  have hloop : ∀ f, save_file_upload_loop 64 (bytes "\r\n" ++ bytes "--XYZ" ++ bytes "--\r\n") f
      ⟨3, bytes "BM\x00data" ++ bytes "\r\n--XYZ--\r\n" ++ List.replicate 46 0, 0, none⟩ []
      (bytes "BM\x00data" ++ bytes "\r\n--XYZ--\r\n") = .fuel := by
    intro f
    induction f with
    | zero => rfl
    | succ f ih =>
      have hstep : save_file_upload_loop 64 (bytes "\r\n" ++ bytes "--XYZ" ++ bytes "--\r\n")
          (f + 1)
          ⟨3, bytes "BM\x00data" ++ bytes "\r\n--XYZ--\r\n" ++ List.replicate 46 0, 0, none⟩ []
          (bytes "BM\x00data" ++ bytes "\r\n--XYZ--\r\n") =
        save_file_upload_loop 64 (bytes "\r\n" ++ bytes "--XYZ" ++ bytes "--\r\n") f
          ⟨3, bytes "BM\x00data" ++ bytes "\r\n--XYZ--\r\n" ++ List.replicate 46 0, 0, none⟩ []
          (bytes "BM\x00data" ++ bytes "\r\n--XYZ--\r\n") := by
        have h1 : read [] (bytes "BM\x00data" ++ bytes "\r\n--XYZ--\r\n" ++ List.replicate 46 0)
            ((64 : Nat) : Int) = .ok (0, bytes "BM\x00data" ++ bytes "\r\n--XYZ--\r\n" ++
              List.replicate 46 0, []) := by decide
        have h2 : cstring (bytes "BM\x00data" ++ bytes "\r\n--XYZ--\r\n" ++ List.replicate 46 0) =
            .ok (bytes "BM") := by decide
        have h3 : strstr (bytes "BM") (bytes "\r\n" ++ bytes "--XYZ" ++ bytes "--\r\n") = none := by
          decide
        have h4 : write_fd (bytes "BM\x00data" ++ bytes "\r\n--XYZ--\r\n")
            (bytes "BM\x00data" ++ bytes "\r\n--XYZ--\r\n" ++ List.replicate 46 0) 0 =
            .ok (bytes "BM\x00data" ++ bytes "\r\n--XYZ--\r\n") := by decide
        simp only [save_file_upload_loop, h1, ok_bind, h2, h3, h4]
      rw [hstep, ih]
  intro fuel
  cases fuel with
  | zero => rfl
  | succ f =>
    have hfirst : save_file_upload 64 (f + 1) ⟨3, List.replicate 64 0, 0, none⟩ (bytes "--XYZ")
        [some (bytes "BM\x00data" ++ bytes "\r\n--XYZ--\r\n")] [] =
      save_file_upload_loop 64 (bytes "\r\n" ++ bytes "--XYZ" ++ bytes "--\r\n") f
        ⟨3, bytes "BM\x00data" ++ bytes "\r\n--XYZ--\r\n" ++ List.replicate 46 0, 0, none⟩ []
        (bytes "BM\x00data" ++ bytes "\r\n--XYZ--\r\n") := by
      have h0 : remove_buffered_line 64 ⟨3, List.replicate 64 0, 0, none⟩ =
          .ok ⟨3, List.replicate 64 0, 0, none⟩ := by decide
      have hw : write_fd [] (List.replicate 64 0) 0 = .ok [] := by decide
      have h1 : read [some (bytes "BM\x00data" ++ bytes "\r\n--XYZ--\r\n")] (List.replicate 64 0)
          ((64 : Nat) : Int) = .ok (18, bytes "BM\x00data" ++ bytes "\r\n--XYZ--\r\n" ++
            List.replicate 46 0, []) := by decide
      have h2 : cstring (bytes "BM\x00data" ++ bytes "\r\n--XYZ--\r\n" ++ List.replicate 46 0) =
          .ok (bytes "BM") := by decide
      have h3 : strstr (bytes "BM") (bytes "\r\n" ++ bytes "--XYZ" ++ bytes "--\r\n") = none := by
        decide
      have h4 : write_fd [] (bytes "BM\x00data" ++ bytes "\r\n--XYZ--\r\n" ++ List.replicate 46 0)
          18 = .ok (bytes "BM\x00data" ++ bytes "\r\n--XYZ--\r\n") := by decide
      simp only [save_file_upload, h0, ok_bind, hw, save_file_upload_loop, h1, h2, h3, h4]
    rw [hfirst, hloop]

theorem save_file_upload_loop_end_of_stream (MAXLINE : Nat) (term s sink : List Nat)
    (client : ClientState) (hlen : MAXLINE ≤ client.buf.length)
    (hs : cstring client.buf = .ok s) (hnone : strstr s term = none) :
    ∀ fuel, save_file_upload_loop MAXLINE term fuel client [] sink = .fuel := by
  intro fuel
  induction fuel with
  | zero => rfl
  | succ f ih =>
    have c : ((0 : Int) ≤ (MAXLINE : Int) ∧ (MAXLINE : Int) ≤ (client.buf.length : Int)) := by
      omega
    have hw : write_fd sink client.buf 0 = .ok sink := by
      simp [write_fd]
    simp only [save_file_upload_loop, read, c, and_self, if_true, ok_bind, hs, hnone, hw]
    exact ih

/-- C13 (failing input). `MAXLINE = 64`, boundary `--XYZ`, payload `BMdata`,
the buffer empty. Delivered in one read, the payload and terminator make the
call return with the file holding `BMdata`. Delivered in two reads split
three bytes into the terminator (`BMdata\r\n-` then `-XYZ--\r\n`), neither chunk
holds the whole terminator: both are written in full and at end of stream the
loop is never left; if a further terminator arrives the call returns with the
file holding the payload and the first terminator. -/
theorem save_file_upload_split_terminator :
    bytes "BMdata\r\n-" ++ bytes "-XYZ--\r\n" = bytes "BMdata" ++ bytes "\r\n--XYZ--\r\n" ∧
    (save_file_upload 64 1 ⟨3, List.replicate 64 0, 0, none⟩ (bytes "--XYZ")
      [some (bytes "BMdata" ++ bytes "\r\n--XYZ--\r\n")] []).bind (fun r => .ok r.2.2.2) =
        .ok (bytes "BMdata") ∧
    (∀ fuel, save_file_upload 64 fuel ⟨3, List.replicate 64 0, 0, none⟩ (bytes "--XYZ")
      [some (bytes "BMdata\r\n-"), some (bytes "-XYZ--\r\n")] [] = .fuel) ∧
    (save_file_upload 64 3 ⟨3, List.replicate 64 0, 0, none⟩ (bytes "--XYZ")
      [some (bytes "BMdata\r\n-"), some (bytes "-XYZ--\r\n"), some (bytes "\r\n--XYZ--\r\n")]
      []).bind (fun r => .ok r.2.2.2) = .ok (bytes "BMdata" ++ bytes "\r\n--XYZ--\r\n") := by
  refine ⟨by decide, by decide, ?_, by decide⟩
  have h0 : remove_buffered_line 64 ⟨3, List.replicate 64 0, 0, none⟩ =
      .ok ⟨3, List.replicate 64 0, 0, none⟩ := by decide
  have hw : write_fd [] (List.replicate 64 0) 0 = .ok [] := by decide
  have h1 : read [some (bytes "BMdata\r\n-"), some (bytes "-XYZ--\r\n")] (List.replicate 64 0)
      ((64 : Nat) : Int) = .ok (9, bytes "BMdata\r\n-" ++ List.replicate 55 0,
        [some (bytes "-XYZ--\r\n")]) := by decide
  have h2 : cstring (bytes "BMdata\r\n-" ++ List.replicate 55 0) = .ok (bytes "BMdata\r\n-") := by
    decide
  have h3 : strstr (bytes "BMdata\r\n-") (bytes "\r\n" ++ bytes "--XYZ" ++ bytes "--\r\n") =
      none := by decide
  have h4 : write_fd [] (bytes "BMdata\r\n-" ++ List.replicate 55 0) 9 =
      .ok (bytes "BMdata\r\n-") := by decide
  have g1 : read [some (bytes "-XYZ--\r\n")] (bytes "BMdata\r\n-" ++ List.replicate 55 0)
      ((64 : Nat) : Int) = .ok (8, bytes "-XYZ--\r\n-" ++ List.replicate 55 0, []) := by decide
  have g2 : cstring (bytes "-XYZ--\r\n-" ++ List.replicate 55 0) = .ok (bytes "-XYZ--\r\n-") := by
    decide
  have g3 : strstr (bytes "-XYZ--\r\n-") (bytes "\r\n" ++ bytes "--XYZ" ++ bytes "--\r\n") =
      none := by decide
  have g4 : write_fd (bytes "BMdata\r\n-") (bytes "-XYZ--\r\n-" ++ List.replicate 55 0) 8 =
      .ok (bytes "BMdata\r\n-" ++ bytes "-XYZ--\r\n") := by decide
  intro fuel
  cases fuel with
  | zero => rfl
  | succ f =>
    cases f with
    | zero =>
      simp only [save_file_upload, h0, ok_bind, hw, save_file_upload_loop, h1, h2, h3, h4]
    | succ f =>
      simp only [save_file_upload, h0, ok_bind, hw, save_file_upload_loop, h1, h2, h3, h4, g1, g2,
        g3, g4]
      exact save_file_upload_loop_end_of_stream 64 _ (bytes "-XYZ--\r\n-") _
        ⟨3, bytes "-XYZ--\r\n-" ++ List.replicate 55 0, 0, none⟩ (by decide) g2 g3 f


/-! ## The query parser: more pairs than slots, and none -/

theorem parse_query_loop_truncate (usable : Nat → Nat) (T : List Nat) :
    ∀ (fuel : Nat) (ps : List (List Nat × List Nat)) (p : List Nat × List Nat) (index : Nat)
      (done todo : List Fdata),
      query_pair p → (∀ q ∈ ps, query_pair q) →
      pair_fits usable p → (∀ q ∈ ps, pair_fits usable q) → done.length = index →
      fuel ≤ ps.length + 1 → fuel ≤ todo.length →
      parse_query_loop usable fuel index (some p.1) (p.2 ++ after_value ps (bytes "HTTP/" ++ T))
          (done ++ todo) =
        .ok (index + fuel, done ++ slots_of ((p :: ps).take fuel) ++ todo.drop fuel) := by
  intro fuel
  induction fuel with
  | zero =>
    intro ps p index done todo _ _ _ _ _ _ _
    simp [parse_query_loop, slots_of]
  | succ f ih =>
    intro ps p index done todo hp hps hfp hfps hdone hfuel htodo
    have hcn := copy_token_fits usable p.1 hfp.1
    have hcv := copy_token_fits usable p.2 hfp.2
    obtain ⟨x, todo1, rfl⟩ := List.exists_cons_of_ne_nil (l := todo) (by
      intro e; rw [e] at htodo; simp at htodo)
    obtain ⟨hn1, hv1, hn2, hv2, hhttp⟩ := hp
    have hname : strstr p.1 (bytes "HTTP") = none := (strstr_eq_none_iff _ _).2 hhttp
    have hdelim : ∀ c ∈ p.2, c ∉ bytes "& " := fun c hc hmem => hv2 c hc (by
      have : c = 38 ∨ c = 32 := by simpa [bytes] using hmem
      rcases this with h | h <;> simp [h])
    cases ps with
    | nil =>
      have hf0 : f = 0 := by simpa using hfuel
      subst hf0
      have hval : strtok (p.2 ++ 32 :: (bytes "HTTP/" ++ T)) (bytes "& ") =
          (some p.2, some p.2.length, bytes "HTTP/" ++ T) :=
        strtok_token p.2 _ (bytes "& ") 32 hv1 hdelim (by decide)
      rw [show after_value [] (bytes "HTTP/" ++ T) = 32 :: (bytes "HTTP/" ++ T) from rfl]
      simp only [parse_query_loop, hname, ne_eq, not_true_eq_false, if_false, hcn, ok_bind, hval,
        hcv]
      rw [← hdone, set_at_length]
      simp [slots_of]
    | cons q qs =>
      have hq : query_pair q := hps q (by simp)
      have hval : strtok (p.2 ++ 38 :: (query_string (q :: qs) ++ 32 :: (bytes "HTTP/" ++ T)))
          (bytes "& ") =
          (some p.2, some p.2.length, query_string (q :: qs) ++ 32 :: (bytes "HTTP/" ++ T)) :=
        strtok_token p.2 _ (bytes "& ") 38 hv1 hdelim (by decide)
      have hnext : strtok (query_string (q :: qs) ++ 32 :: (bytes "HTTP/" ++ T)) (bytes "= ") =
          (some q.1, some q.1.length, q.2 ++ after_value qs (bytes "HTTP/" ++ T)) := by
        rw [query_string_cons]
        exact strtok_token q.1 _ (bytes "= ") 61 hq.1
          (fun c hc hmem => hq.2.2.1 c hc (by
            have : c = 61 ∨ c = 32 := by simpa [bytes] using hmem
            rcases this with h | h <;> simp [h])) (by decide)
      rw [show after_value (q :: qs) (bytes "HTTP/" ++ T) =
        38 :: (query_string (q :: qs) ++ 32 :: (bytes "HTTP/" ++ T)) from rfl]
      simp only [parse_query_loop, hname, ne_eq, not_true_eq_false, if_false, hcn, ok_bind, hval,
        hcv, hnext]
      rw [← hdone, set_at_length]
      have h := ih qs q (done.length + 1) (done ++ [⟨some p.1, some p.2⟩]) todo1 hq
        (fun r hr => hps r (by simp [hr])) (hfps q (by simp))
        (fun r hr => hfps r (by simp [hr])) (by simp) (by simp at hfuel; omega)
        (by simp at htodo; omega)
      simp only [List.append_assoc, List.singleton_append] at h
      rw [h]
      simp [slots_of]
      omega

theorem parse_query_no_pairs (usable : Nat → Nat) (MAX_QUERY_PARAMS : Nat)
    (fresh : List Fdata) (T : List Nat) (hfresh : fresh.length = MAX_QUERY_PARAMS) :
    parse_query usable MAX_QUERY_PARAMS fresh (32 :: (bytes "HTTP/" ++ T)) =
      .ok (List.replicate MAX_QUERY_PARAMS ⟨none, none⟩) := by
  obtain ⟨stop, rest, htok⟩ := strtok_head (32 :: bytes "HTTP/") T (bytes "=") (by simp)
    (by decide)
  have hstr : strstr (32 :: bytes "HTTP/" ++ T.takeWhile (fun c => decide (c ∉ bytes "=")))
      (bytes "HTTP") ≠ none := by
    rw [ne_eq, strstr_eq_none_iff, not_not]
    refine ⟨[32], bytes "/" ++ T.takeWhile (fun c => decide (c ∉ bytes "=")), ?_⟩
    have e : bytes "HTTP/" = bytes "HTTP" ++ bytes "/" := by decide
    rw [e]; simp
  have hcons : (32 :: bytes "HTTP/") ++ T = 32 :: (bytes "HTTP/" ++ T) := rfl
  rw [hcons] at htok
  cases hM : MAX_QUERY_PARAMS with
  | zero =>
    have : fresh = [] := List.length_eq_zero.1 (by rw [hfresh, hM])
    simp [parse_query, parse_query_loop, this]
  | succ m =>
    simp only [parse_query, htok, parse_query_loop, hstr, if_true, ok_bind, ne_eq,
      not_false_eq_true]
    have hne : ¬ (0 = m + 1) := by omega
    rw [if_pos hne]
    have := clear_params_all (m + 1) 0 [] fresh rfl (by rw [hfresh, hM])
    simpa using this

/-- The query parser when every copied terminator fits. For a well-formed
query (`k` pairs `name=value` joined by `&`, every name and value non-empty and
free of space, `?`, `=`, `&`, CR, LF and NUL, no name containing `HTTP`) whose
names and values each leave room for their NUL in the block `malloc` gave,
followed by ` HTTP/` and the rest of the buffer, `parse_query` returns with the
first `min k MAX_QUERY_PARAMS` pairs in input order in the first slots and every
later slot unset. -/
theorem parse_query_first_pairs (usable : Nat → Nat) (MAX_QUERY_PARAMS : Nat)
    (fresh : List Fdata) (pairs : List (List Nat × List Nat)) (T : List Nat)
    (hfresh : fresh.length = MAX_QUERY_PARAMS) (hpairs : ∀ p ∈ pairs, query_pair p)
    (hfit : ∀ p ∈ pairs, pair_fits usable p) :
    parse_query usable MAX_QUERY_PARAMS fresh (query_string pairs ++ 32 :: (bytes "HTTP/" ++ T)) =
      .ok (slots_of (pairs.take MAX_QUERY_PARAMS) ++
        List.replicate (MAX_QUERY_PARAMS - pairs.length) ⟨none, none⟩) := by
  cases pairs with
  | nil =>
    simp only [query_string, List.nil_append, List.take_nil, slots_of, List.map_nil,
      List.length_nil, Nat.sub_zero]
    exact parse_query_no_pairs usable MAX_QUERY_PARAMS fresh T hfresh
  | cons p ps =>
    by_cases hk : (p :: ps).length ≤ MAX_QUERY_PARAMS
    · rw [parse_query_pairs usable MAX_QUERY_PARAMS fresh (p :: ps) T hfresh (by simp) hk hpairs
        hfit,
        List.take_of_length_le hk]
    · have hp : query_pair p := hpairs p (by simp)
      have hfirst : strtok (query_string (p :: ps) ++ 32 :: (bytes "HTTP/" ++ T)) (bytes "=") =
          (some p.1, some p.1.length, p.2 ++ after_value ps (bytes "HTTP/" ++ T)) := by
        rw [query_string_cons]
        exact strtok_token p.1 _ (bytes "=") 61 hp.1
          (fun c hc hmem => hp.2.2.1 c hc (by
            have : c = 61 := by simpa [bytes] using hmem
            simp [this])) (by decide)
      have hloop := parse_query_loop_truncate usable T MAX_QUERY_PARAMS ps p 0 [] fresh hp
        (fun q hq => hpairs q (by simp [hq])) (hfit p (by simp))
        (fun q hq => hfit q (by simp [hq])) rfl (by simp at hk; omega) (by rw [hfresh])
      simp only [List.nil_append, Nat.zero_add] at hloop
      simp only [parse_query, hfirst, hloop, ok_bind, ne_eq, not_true_eq_false, if_false]
      have h1 : fresh.drop MAX_QUERY_PARAMS = [] := by
        rw [List.drop_eq_nil_iff, hfresh]
      have h2 : MAX_QUERY_PARAMS - (p :: ps).length = 0 := by omega
      rw [h1, h2]
      simp

/-- C14 (failing input). The query `a=vvvvvvvvvvvvvvvvvvvvvvvv&bb=2` followed by
` HTTP/1.1\r\n` is well formed, its first value being 24 bytes long.
`parse_query` asks `malloc` for `strlen(token)` bytes and `strcpy` writes one
byte more, the NUL. On 64-bit glibc a block asked for with 24 bytes has 24
usable bytes, so the NUL of this value is written outside its block and the
call has no defined result, where the claim promises the pair `a`,
`vvvvvvvvvvvvvvvvvvvvvvvv` in slot 0. With an allocator that gives just the
bytes asked for, the same holds for `a=1`; with one more byte in every block
the 24-byte input gives what the claim says. -/
theorem parse_query_value_outside_block :
    query_string [(bytes "a", List.replicate 24 118), (bytes "bb", bytes "2")] ++
        32 :: (bytes "HTTP/" ++ bytes "1.1\r\n") =
      bytes "a=vvvvvvvvvvvvvvvvvvvvvvvv&bb=2 HTTP/1.1\r\n" ∧
    query_pair (bytes "a", List.replicate 24 118) ∧ query_pair (bytes "bb", bytes "2") ∧
    usable_size_glibc 24 = 24 ∧
    copy_token usable_size_glibc (List.replicate 24 118) = .undefined ∧
    parse_query usable_size_glibc 5 (unset_params 5)
        (bytes "a=vvvvvvvvvvvvvvvvvvvvvvvv&bb=2 HTTP/1.1\r\n") = .undefined ∧
    parse_query (fun n => n) 5 (unset_params 5) (bytes "a=1 HTTP/1.1\r\n") = .undefined ∧
    parse_query (fun n => n + 1) 5 (unset_params 5)
        (bytes "a=vvvvvvvvvvvvvvvvvvvvvvvv&bb=2 HTTP/1.1\r\n") =
      .ok [⟨some (bytes "a"), some (List.replicate 24 118)⟩,
        ⟨some (bytes "bb"), some (bytes "2")⟩, ⟨none, none⟩, ⟨none, none⟩, ⟨none, none⟩] := by
  decide

/-! ## What the request-line parser changes in the buffer -/

theorem drop_takeWhile_head {p : Nat → Bool} : ∀ (l : List Nat) (d : Nat) (rest : List Nat),
    l.drop (l.takeWhile p).length = d :: rest → p d = false := by
  intro l
  induction l with
  | nil => intro d rest h; simp at h
  | cons a l ih =>
    intro d rest h
    by_cases ha : p a = true
    · rw [List.takeWhile_cons_of_pos ha] at h
      exact ih d rest (by simpa using h)
    · rw [List.takeWhile_cons_of_neg ha] at h
      simp only [List.length_nil, List.drop_zero, List.cons.injEq] at h
      rw [← h.1]
      simpa using ha

theorem strtok_stop (s delims : List Nat) (tok : Option (List Nat)) (k : Nat) (rest : List Nat)
    (h : strtok s delims = (tok, some k, rest)) : ∃ d, d ∈ delims ∧ s[k]? = some d := by
  unfold strtok at h
  simp only at h
  generalize hlead : (s.takeWhile (fun c => decide (c ∈ delims))).length = lead at h
  generalize htk : (s.drop lead).takeWhile (fun c => decide (c ∉ delims)) = tk at h
  cases tk with
  | nil => simp at h
  | cons x xs =>
    simp only at h
    cases hdrop : s.drop (lead + (x :: xs).length) with
    | nil => rw [hdrop] at h; simp at h
    | cons d rest1 =>
      rw [hdrop] at h
      simp only [Prod.mk.injEq, Option.some.injEq] at h
      obtain ⟨-, hk, -⟩ := h
      refine ⟨d, ?_, ?_⟩
      · have h2 : (s.drop lead).drop ((s.drop lead).takeWhile
            (fun c => decide (c ∉ delims))).length = d :: rest1 := by
          rw [htk, List.drop_drop]
          exact hdrop
        have := drop_takeWhile_head (s.drop lead) d rest1 h2
        simpa using this
      · rw [← hk]
        have := congrArg (fun l => l[0]?) hdrop
        simpa using this

theorem cstring_getElem (buf s : List Nat) (hs : cstring buf = .ok s) (i d : Nat)
    (h : s[i]? = some d) : buf[i]? = some d := by
  unfold cstring at hs
  split at hs
  · cases hs
    obtain ⟨t, ht⟩ := List.takeWhile_prefix (fun c => decide (c ≠ 0)) (l := buf)
    have hi : i < (buf.takeWhile (fun c => decide (c ≠ 0))).length := by
      by_contra hc
      rw [List.getElem?_eq_none (by omega)] at h
      cases h
    rw [← ht, List.getElem?_append_left hi]
    exact h
  · cases hs

/-- C16 as amended. Whenever `parse_req_start_line` returns 1, `num_bytes` and
`sock` are as before and the array is as before except for at most one byte:
`strtok` overwrites the space or `?` that ends the path with NUL. -/
theorem parse_req_start_line_frame (usable : Nat → Nat) (MAX_QUERY_PARAMS : Nat)
    (fresh : List Fdata)
    (client client1 : ClientState)
    (h : parse_req_start_line usable MAX_QUERY_PARAMS fresh client = .ok (1, client1)) :
    client1.num_bytes = client.num_bytes ∧ client1.sock = client.sock ∧
      (client1.buf = client.buf ∨
        ∃ k, (client.buf[k]? = some 32 ∨ client.buf[k]? = some 63) ∧
          client1.buf = client.buf.set k 0) := by
  cases hfind : find_network_newline client.buf client.num_bytes with
  | exit c => simp [parse_req_start_line, hfind, Outcome.bind] at h
  | undefined => simp [parse_req_start_line, hfind, Outcome.bind] at h
  | fuel => simp [parse_req_start_line, hfind, Outcome.bind] at h
  | ok r =>
    by_cases hr : r = -1
    · simp [parse_req_start_line, hfind, hr] at h
    · cases hs : cstring client.buf with
      | exit c => simp [parse_req_start_line, hfind, hr, hs, Outcome.bind] at h
      | undefined => simp [parse_req_start_line, hfind, hr, hs, Outcome.bind] at h
      | fuel => simp [parse_req_start_line, hfind, hr, hs, Outcome.bind] at h
      | ok s =>
        rw [parse_req_start_line_unfold usable MAX_QUERY_PARAMS fresh client r s hfind hr hs] at h
        generalize (if strstr s GET = none then
            if strstr s POST = none then Outcome.exit 1 else Outcome.ok POST
          else Outcome.ok GET) = st at h
        cases st with
        | exit c => simp [Outcome.bind] at h
        | undefined => simp [Outcome.bind] at h
        | fuel => simp [Outcome.bind] at h
        | ok start =>
          rw [ok_bind] at h
          generalize (match strstr s (bytes "?") with
            | some q => parse_query usable MAX_QUERY_PARAMS fresh (s.drop (q + 1))
            | none => Outcome.ok fresh) = pq at h
          cases pq with
          | exit c => simp [Outcome.bind] at h
          | undefined => simp [Outcome.bind] at h
          | fuel => simp [Outcome.bind] at h
          | ok params =>
            rw [ok_bind] at h
            cases ht : strstr s (bytes "/") with
            | none => simp [ht] at h
            | some t =>
              simp only [ht] at h
              rcases hk : strtok (s.drop t) (bytes " ?") with ⟨tok, stop, rest⟩
              rw [hk] at h
              cases tok with
              | none => simp at h
              | some target =>
                simp only [Outcome.ok.injEq, Prod.mk.injEq, true_and] at h
                subst h
                refine ⟨rfl, rfl, ?_⟩
                cases stop with
                | none => exact Or.inl rfl
                | some k =>
                  right
                  obtain ⟨d, hd, hsk⟩ := strtok_stop _ _ _ _ _ hk
                  rw [List.getElem?_drop] at hsk
                  have hb := cstring_getElem client.buf s hs _ d hsk
                  have hd2 : d = 32 ∨ d = 63 := by simpa [bytes] using hd
                  refine ⟨t + k, ?_, rfl⟩
                  rcases hd2 with e | e
                  · left; rw [hb, e]
                  · right; rw [hb, e]

/-- Witness for C16 as amended: after `GET /index.html HTTP/1.1\r\n` is parsed,
the array differs from before in the one byte after the path. -/
theorem parse_req_start_line_frame_witness :
    ∃ client1,
      parse_req_start_line usable_size_glibc 5 (unset_params 5)
        ⟨3, buffer_of 48 "GET /index.html HTTP/1.1\r\n", 26, none⟩ = .ok (1, client1) ∧
      client1.num_bytes = 26 ∧ client1.sock = 3 ∧
      (client1.buf = buffer_of 48 "GET /index.html HTTP/1.1\r\n" ∨
        ∃ k, ((buffer_of 48 "GET /index.html HTTP/1.1\r\n")[k]? = some 32 ∨
            (buffer_of 48 "GET /index.html HTTP/1.1\r\n")[k]? = some 63) ∧
          client1.buf = (buffer_of 48 "GET /index.html HTTP/1.1\r\n").set k 0) := by
  have hrun : parse_req_start_line usable_size_glibc 5 (unset_params 5)
      ⟨3, buffer_of 48 "GET /index.html HTTP/1.1\r\n", 26, none⟩ =
      .ok (1, ⟨3, buffer_of 48 "GET /index.html\x00HTTP/1.1\r\n", 26,
        some ⟨GET, bytes "/index.html", unset_params 5⟩⟩) := by decide
  exact ⟨_, hrun, parse_req_start_line_frame usable_size_glibc 5 (unset_params 5) _ _ hrun⟩

/-- Counterexample for C16: `parse_req_start_line` returns 1 on
`GET /index.html HTTP/1.1\r\n` and the byte at index 15, a space before the
call, is NUL after it, so the buffered bytes are not identical. -/
theorem parse_req_start_line_writes_nul :
    parse_req_start_line usable_size_glibc 5 (unset_params 5)
        ⟨3, buffer_of 48 "GET /index.html HTTP/1.1\r\n", 26, none⟩ =
      .ok (1, ⟨3, buffer_of 48 "GET /index.html\x00HTTP/1.1\r\n", 26,
        some ⟨GET, bytes "/index.html", unset_params 5⟩⟩) ∧
    (buffer_of 48 "GET /index.html HTTP/1.1\r\n")[15]? = some 32 ∧
    (buffer_of 48 "GET /index.html\x00HTTP/1.1\r\n")[15]? = some 0 ∧
    (buffer_of 48 "GET /index.html\x00HTTP/1.1\r\n").take 26 ≠
      (buffer_of 48 "GET /index.html HTTP/1.1\r\n").take 26 := by
  decide


/-! ## The boundary line and the file name -/

theorem remove_first_line (MAXLINE : Nat) (client : ClientState) (l P rest : List Nat)
    (hbuf : client.buf = l ++ CR :: LF :: (P ++ rest)) (hlen : client.buf.length = MAXLINE)
    (hl : no_crlf l) (hn1 : ((l.length + 2 + P.length : Nat) : Int) ≤ client.num_bytes)
    (hn2 : client.num_bytes ≤ MAXLINE) :
    ∃ client1 rest1, remove_buffered_line MAXLINE client = .ok client1 ∧
      client1.buf = P ++ rest1 ∧ client1.buf.length = MAXLINE ∧
      client1.num_bytes = client.num_bytes - ((l.length : Int) + 2) ∧
      (∀ k : Nat, (k : Int) < client1.num_bytes →
        client1.buf[k]? = client.buf[l.length + 2 + k]?) ∧
      client1.sock = client.sock ∧ client1.reqData = client.reqData := by
  obtain ⟨N, hN⟩ : ∃ N : Nat, client.num_bytes = (N : Int) := ⟨client.num_bytes.toNat, by omega⟩
  have hNn : client.num_bytes.toNat = N := by rw [hN]; exact Int.toNat_ofNat N
  rw [hN] at hn1 hn2
  have hrem := remove_buffered_line_at MAXLINE client l.length hlen (by omega) (by omega)
    (by rw [hbuf]; exact crlf_at_end l _)
    (by intro j hj; rw [hbuf]; exact no_crlf_before l _ (fun i hi => hl i (by omega)) j hj)
  have hdrop : client.buf.drop (l.length + 2) = P ++ rest := by
    rw [hbuf]
    have e : l.length + 2 = (l ++ [CR, LF]).length := by simp
    have e2 : l ++ CR :: LF :: (P ++ rest) = (l ++ [CR, LF]) ++ (P ++ rest) := by simp
    rw [e2, e, List.drop_left]
  have htake : (client.buf.drop (l.length + 2)).take (N - (l.length + 2)) =
      P ++ rest.take (N - (l.length + 2) - P.length) := by
    rw [hdrop, List.take_append_eq_append_take, List.take_of_length_le (by omega)]
  refine ⟨_, rest.take (N - (l.length + 2) - P.length) ++
    List.replicate (MAXLINE - (N - (l.length + 2))) 0, hrem, ?_, ?_, rfl, ?_, rfl, rfl⟩
  · simp only [hNn, htake, List.append_assoc]
  · simp only [hNn, List.length_append, List.length_take, List.length_drop,
      List.length_replicate, hlen]
    omega
  · intro k hk
    simp only [hN] at hk
    simp only [hNn]
    exact removed_bytes client.buf (l.length + 2) N MAXLINE k hlen (by omega) (by omega)

theorem seek_at_line (MAXLINE fuel : Nat) (client client1 : ClientState) (net : Net)
    (b l tail : List Nat) (hb0 : ∀ c ∈ b, c ≠ 0) (hbuf : client.buf = l ++ CR :: LF :: tail)
    (hl : no_crlf l) (hn : (l.length : Int) + 2 ≤ client.num_bytes)
    (hrem : remove_buffered_line MAXLINE client = .ok client1) :
    (b <+: l → get_bitmap_filename_seek MAXLINE b (fuel + 1) client net =
        .ok (true, client1, net)) ∧
      (¬ b <+: l → get_bitmap_filename_seek MAXLINE b (fuel + 1) client net =
        get_bitmap_filename_seek MAXLINE b fuel client1 net) := by
  have hfind : find_network_newline client.buf client.num_bytes = .ok ((l.length : Int) + 2) := by
    rw [hbuf]
    exact find_network_newline_first_line l tail client.num_bytes
      (fun i hi => hl i (by omega)) hn
  have hw : (l.length : Int) + 2 > 0 := by omega
  have hunf : get_bitmap_filename_seek MAXLINE b (fuel + 1) client net =
      (if (l.length : Int) + 2 < (b.length : Int) + 2 then Outcome.ok true
        else (strncmp (b ++ [0]) client.buf b.length).bind
          fun r => .ok (decide (r ≠ 0))).bind fun skip =>
        if skip then get_bitmap_filename_seek MAXLINE b fuel client1 net
        else .ok (true, client1, net) := by
    simp only [get_bitmap_filename_seek, hfind, ok_bind, if_pos hw, Int.toNat_ofNat, hrem]
  rw [hunf]
  by_cases hlt : (l.length : Int) + 2 < (b.length : Int) + 2
  · have hnp : ¬ b <+: l := fun hp => by
      have := hp.length_le
      omega
    simp only [if_pos hlt, ok_bind, if_true]
    exact ⟨fun hp => absurd hp hnp, fun _ => trivial⟩
  · obtain ⟨r, h1, h2⟩ := strncmp_literal b hb0 client.buf (by
      rw [hbuf]; simp; omega)
    have hiff : b <+: client.buf ↔ b <+: l := by
      rw [hbuf]
      constructor
      · intro hp
        exact List.prefix_of_prefix_length_le hp (List.prefix_append _ _) (by omega)
      · intro hp
        exact hp.trans (List.prefix_append _ _)
    simp only [if_neg hlt, h1, ok_bind]
    constructor
    · intro hp
      have hr0 : r = 0 := h2.2 (hiff.2 hp)
      simp [hr0]
    · intro hnp
      have hr0 : r ≠ 0 := fun e => hnp (hiff.1 (h2.1 e))
      simp [hr0]

/-- C19 as amended. For a boundary `b` (a string, so without NUL) and a
complete buffered line `L` followed by its network newline, with no network
newline inside `L`, the loop of `get_bitmap_filename` removes the line and
stops on it if and only if `L` begins with `b`: a line such as `b` followed by
`--` or by `x` is taken for the boundary line; a line that does not begin with
`b` is removed and the loop goes on with the next one. -/
theorem get_bitmap_filename_seek_stops_on_line_starting_with_boundary (MAXLINE fuel : Nat)
    (client : ClientState) (net : Net) (b L tail : List Nat)
    (hb0 : ∀ c ∈ b, c ≠ 0) (hbuf : client.buf = L ++ CR :: LF :: tail)
    (hlen : client.buf.length = MAXLINE) (hL : no_crlf L)
    (hn1 : (L.length : Int) + 2 ≤ client.num_bytes) (hn2 : client.num_bytes ≤ MAXLINE) :
    ∃ client1, remove_buffered_line MAXLINE client = .ok client1 ∧
      client1.num_bytes = client.num_bytes - ((L.length : Int) + 2) ∧
      (b <+: L → get_bitmap_filename_seek MAXLINE b (fuel + 1) client net =
        .ok (true, client1, net)) ∧
      (¬ b <+: L → get_bitmap_filename_seek MAXLINE b (fuel + 1) client net =
        get_bitmap_filename_seek MAXLINE b fuel client1 net) := by
  obtain ⟨client1, rest1, hrem, -, -, hnum, -, -, -⟩ :=
    remove_first_line MAXLINE client L [] tail (by simpa using hbuf) hlen hL
      (by simp only [List.length_nil, Nat.add_zero]; omega) hn2
  have h := seek_at_line MAXLINE fuel client client1 net b L tail hb0 hbuf hL hn1 hrem
  exact ⟨client1, hrem, hnum, h.1, h.2⟩

/-- Witness for C19 as amended: with boundary `--XYZ` the line `--XYZ--` stops
the loop, the line `junk` does not. -/
theorem get_bitmap_filename_seek_stops_on_line_starting_with_boundary_witness :
    (∃ client1, remove_buffered_line 32 ⟨3, buffer_of 32 "--XYZ--\r\nnext\r\n", 15, none⟩ =
        .ok client1 ∧
      get_bitmap_filename_seek 32 (bytes "--XYZ") 1
        ⟨3, buffer_of 32 "--XYZ--\r\nnext\r\n", 15, none⟩ [] = .ok (true, client1, [])) ∧
    (∃ client1, remove_buffered_line 32 ⟨3, buffer_of 32 "junk\r\nnext\r\n", 12, none⟩ =
        .ok client1 ∧
      get_bitmap_filename_seek 32 (bytes "--XYZ") 1
        ⟨3, buffer_of 32 "junk\r\nnext\r\n", 12, none⟩ [] =
      get_bitmap_filename_seek 32 (bytes "--XYZ") 0 client1 []) := by
  constructor
  · obtain ⟨client1, hrem, -, hstop, -⟩ :=
      get_bitmap_filename_seek_stops_on_line_starting_with_boundary 32 0
        ⟨3, buffer_of 32 "--XYZ--\r\nnext\r\n", 15, none⟩ [] (bytes "--XYZ") (bytes "--XYZ--")
        (bytes "next\r\n" ++ List.replicate 17 0) (by decide) (by decide) (by decide) (by decide)
        (by decide) (by decide)
    exact ⟨client1, hrem, hstop (by decide)⟩
  · obtain ⟨client1, hrem, -, -, hskip⟩ :=
      get_bitmap_filename_seek_stops_on_line_starting_with_boundary 32 0
        ⟨3, buffer_of 32 "junk\r\nnext\r\n", 12, none⟩ [] (bytes "--XYZ") (bytes "junk")
        (bytes "next\r\n" ++ List.replicate 20 0) (by decide) (by decide) (by decide) (by decide)
        (by decide) (by decide)
    exact ⟨client1, hrem, hskip (by decide)⟩

/-- Counterexample for C19: the boundary is `--XYZ` and the buffered line is
`--XYZ--`, which is not the boundary; with one step allowed the loop stops on
it (had it gone on to the next line, the step budget would have run out). -/
theorem get_bitmap_filename_seek_stops_on_longer_line :
    bytes "--XYZ--" ≠ bytes "--XYZ" ∧
    get_bitmap_filename_seek 32 (bytes "--XYZ") 1
        ⟨3, buffer_of 32 "--XYZ--\r\nnext\r\n", 15, none⟩ [] =
      .ok (true, ⟨3, buffer_of 32 "next\r\n", 6, none⟩, []) := by
  decide


theorem seek_finds_boundary_line (MAXLINE : Nat) (net : Net) (b A : List Nat)
    (hb0 : ∀ c ∈ b, c ≠ 0) (hbl : no_crlf b) (ls : List (List Nat)) :
    ∀ (client : ClientState) (rest : List Nat) (fuel : Nat),
      client.buf = buffered_lines ls ++ (b ++ CR :: LF :: (A ++ rest)) →
      client.buf.length = MAXLINE →
      (((buffered_lines ls).length + (b.length + 2) + A.length : Nat) : Int) ≤ client.num_bytes →
      client.num_bytes ≤ MAXLINE →
      (∀ l ∈ ls, no_crlf l ∧ ¬ b <+: l) →
      ls.length + 1 ≤ fuel →
      ∃ client1 rest1, get_bitmap_filename_seek MAXLINE b fuel client net =
          .ok (true, client1, net) ∧
        client1.buf = A ++ rest1 ∧ client1.buf.length = MAXLINE ∧
        client1.num_bytes =
          client.num_bytes - (((buffered_lines ls).length + (b.length + 2) : Nat) : Int) ∧
        (∀ k : Nat, (k : Int) < client1.num_bytes →
          client1.buf[k]? = client.buf[(buffered_lines ls).length + (b.length + 2) + k]?) ∧
        client1.sock = client.sock ∧ client1.reqData = client.reqData := by
  induction ls with
  | nil =>
    intro client rest fuel hbuf hlen hn1 hn2 _ hfuel
    obtain ⟨f, rfl⟩ : ∃ f, fuel = f + 1 := ⟨fuel - 1, by omega⟩
    simp only [buffered_lines, List.nil_append, List.length_nil, Nat.zero_add] at hbuf hn1
    obtain ⟨client1, rest1, hrem, hb1, hl1, hnum, hbytes, hsock, hreq⟩ :=
      remove_first_line MAXLINE client b A rest hbuf hlen hbl (by omega) hn2
    have hstop := (seek_at_line MAXLINE f client client1 net b b (A ++ rest) hb0 hbuf hbl
      (by omega) hrem).1 (List.prefix_refl b)
    refine ⟨client1, rest1, hstop, hb1, hl1, ?_, ?_, hsock, hreq⟩
    · rw [hnum]; simp [buffered_lines]
    · intro k hk
      rw [hbytes k hk]
      simp [buffered_lines]
  | cons l ls ih =>
    intro client rest fuel hbuf hlen hn1 hn2 hls hfuel
    obtain ⟨f, rfl⟩ : ∃ f, fuel = f + 1 := ⟨fuel - 1, by simp at hfuel; omega⟩
    obtain ⟨hl1, hl2⟩ := hls l (by simp)
    simp only [buffered_lines, List.length_append, List.length_cons] at hn1
    have hbuf2 : client.buf = l ++ CR :: LF ::
        ((buffered_lines ls ++ (b ++ CR :: LF :: A)) ++ rest) := by
      rw [hbuf]; simp [buffered_lines]
    obtain ⟨client1, rest1, hrem, hb1, hlen1, hnum, hbytes, hsock, hreq⟩ :=
      remove_first_line MAXLINE client l (buffered_lines ls ++ (b ++ CR :: LF :: A)) rest hbuf2
        hlen hl1 (by simp only [List.length_append, List.length_cons]; omega) hn2
    have hskip := (seek_at_line MAXLINE f client client1 net b l _ hb0 hbuf2 hl1
      (by omega) hrem).2 hl2
    obtain ⟨client2, rest2, hrun, hb2, hlen2, hnum2, hbytes2, hsock2, hreq2⟩ :=
      ih client1 rest1 f (by rw [hb1]; simp) hlen1 (by rw [hnum]; omega) (by rw [hnum]; omega)
        (fun l1 h1 => hls l1 (by simp [h1])) (by simp at hfuel; omega)
    refine ⟨client2, rest2, by rw [hskip]; exact hrun, hb2, hlen2, ?_, ?_,
      hsock2.trans hsock, hreq2.trans hreq⟩
    · rw [hnum2, hnum]
      simp only [buffered_lines, List.length_append, List.length_cons]
      omega
    · intro k hk
      rw [hbytes2 k hk, hbytes _ (by rw [hnum2] at hk; omega)]
      congr 1
      simp only [buffered_lines, List.length_append, List.length_cons]
      omega

theorem strrchr_none (s : List Nat) (c : Nat) (h : c ∉ s) : strrchr s c = none := by
  induction s with
  | nil => rfl
  | cons a s ih =>
    have ha : ¬ a = c := fun e => h (by simp [e])
    simp [strrchr, ih (fun e => h (by simp [e])), ha]

theorem strrchr_last (a b : List Nat) (c : Nat) (h : c ∉ b) :
    strrchr (a ++ c :: b) c = some a.length := by
  induction a with
  | nil => simp [strrchr, strrchr_none b c h]
  | cons x a ih => simp [strrchr, ih]

theorem extract_filename (MAXLINE : Nat) (client : ClientState) (pre name rest : List Nat)
    (hbuf : client.buf = disposition_line pre name ++ CR :: LF :: rest)
    (hlen : client.buf.length = MAXLINE) (hD : no_crlf (disposition_line pre name))
    (hpre : ∀ c ∈ pre, c ≠ 0) (hname : ∀ c ∈ name, c ≠ 61 ∧ c ≠ 0)
    (hn1 : (((disposition_line pre name).length + 2 : Nat) : Int) ≤ client.num_bytes)
    (hn2 : client.num_bytes ≤ MAXLINE) :
    ∃ client1, get_bitmap_filename_extract MAXLINE client = .ok (name, client1) ∧
      client1.num_bytes =
        client.num_bytes - (((disposition_line pre name).length + 2 : Nat) : Int) ∧
      (∀ k : Nat, (k : Int) < client1.num_bytes →
        client1.buf[k]? = client.buf[(disposition_line pre name).length + 2 + k]?) ∧
      client1.sock = client.sock ∧ client1.reqData = client.reqData := by
  have hDlen : (disposition_line pre name).length = pre.length + name.length + 3 := by
    simp [disposition_line]; omega
  have hfind : find_network_newline client.buf client.num_bytes =
      .ok (((disposition_line pre name).length : Int) + 2) := by
    rw [hbuf]
    exact find_network_newline_first_line _ rest client.num_bytes
      (fun i hi => hD i (by omega)) (by omega)
  have hbuflen : (disposition_line pre name).length + 2 ≤ client.buf.length := by
    rw [hbuf]; simp
  have hset0 : client.buf.set ((disposition_line pre name).length + 1) 0 =
      disposition_line pre name ++ CR :: 0 :: rest := by
    rw [hbuf, List.set_append_right _ _ (by omega)]
    have : (disposition_line pre name).length + 1 - (disposition_line pre name).length = 1 := by
      omega
    rw [this]; rfl
  have hsetLF : (disposition_line pre name ++ CR :: 0 :: rest).set
      ((disposition_line pre name).length + 1) LF = client.buf := by
    rw [hbuf, List.set_append_right _ _ (by omega)]
    have : (disposition_line pre name).length + 1 - (disposition_line pre name).length = 1 := by
      omega
    rw [this]; rfl
  have hstore0 : store client.buf (((disposition_line pre name).length : Int) + 2 - 1) 0 =
      .ok (disposition_line pre name ++ CR :: 0 :: rest) := by
    have c : ((0 : Int) ≤ ((disposition_line pre name).length : Int) + 2 - 1 ∧
        ((disposition_line pre name).length : Int) + 2 - 1 < (client.buf.length : Int)) := by omega
    have e : (((disposition_line pre name).length : Int) + 2 - 1).toNat =
        (disposition_line pre name).length + 1 := by omega
    simp only [store, c, and_self, if_true, e, hset0]
  have hstoreLF : store (disposition_line pre name ++ CR :: 0 :: rest)
      (((disposition_line pre name).length : Int) + 2 - 1) LF = .ok client.buf := by
    have c : ((0 : Int) ≤ ((disposition_line pre name).length : Int) + 2 - 1 ∧
        ((disposition_line pre name).length : Int) + 2 - 1 <
          ((disposition_line pre name ++ CR :: 0 :: rest).length : Int)) := by
      simp only [List.length_append, List.length_cons]; omega
    have e : (((disposition_line pre name).length : Int) + 2 - 1).toNat =
        (disposition_line pre name).length + 1 := by omega
    simp only [store, c, and_self, if_true, e, hsetLF]
  have hD0 : ∀ c ∈ disposition_line pre name ++ [CR], c ≠ 0 := by
    intro c hc
    simp only [disposition_line, List.mem_append, List.mem_cons, List.mem_singleton,
      List.not_mem_nil, or_false] at hc
    rcases hc with ((h | h | h | h) | h) | h
    · exact hpre c h
    · omega
    · omega
    · exact (hname c h).2
    · omega
    · rw [h]; decide
  have hcs : cstring (disposition_line pre name ++ CR :: 0 :: rest) =
      .ok (disposition_line pre name ++ [CR]) := by
    have := cstring_append (disposition_line pre name ++ [CR]) (0 :: rest) hD0 (by simp)
    simpa [List.takeWhile] using this
  have hrchr : strrchr (disposition_line pre name ++ [CR]) 61 = some pre.length := by
    have e : disposition_line pre name ++ [CR] = pre ++ 61 :: (34 :: name ++ [34, CR]) := by
      simp [disposition_line]
    rw [e]
    apply strrchr_last
    intro hmem
    simp only [List.mem_append, List.mem_cons, List.mem_singleton, List.not_mem_nil,
      or_false] at hmem
    rcases hmem with (h | h) | h | h
    · omega
    · exact (hname 61 h).1 rfl
    · omega
    · revert h; decide
  have hraw : (disposition_line pre name ++ CR :: 0 :: rest).drop (pre.length + 2) =
      name ++ 34 :: CR :: 0 :: rest := by
    have e : disposition_line pre name ++ CR :: 0 :: rest =
        (pre ++ [61, 34]) ++ (name ++ 34 :: CR :: 0 :: rest) := by
      simp [disposition_line]
    have e2 : pre.length + 2 = (pre ++ [61, 34]).length := by simp
    rw [e, e2, List.drop_left]
  have hhead : strn_head (name ++ 34 :: CR :: 0 :: rest) name.length = .ok name := by
    have := strn_head_append name (fun c hc => (hname c hc).2) (34 :: CR :: 0 :: rest) 0
    simpa [strn_head] using this
  obtain ⟨client1, rest1, hrem, -, -, hnum, hbytes, hsock, hreq⟩ :=
    remove_first_line MAXLINE client (disposition_line pre name) [] rest (by simpa using hbuf)
      hlen hD (by simpa using hn1) hn2
  have e1 : ((pre.length : Int) + 2).toNat = pre.length + 2 := by omega
  have e2 : ((disposition_line pre name).length : Int) + 2 - 3 - ((pre.length : Int) + 2) =
      (name.length : Int) := by rw [hDlen]; push_cast; omega
  have e3 : ¬ ((name.length : Int) < 0) := by omega
  have hself : ({ client with buf := client.buf } : ClientState) = client := rfl
  refine ⟨client1, ?_, by rw [hnum]; push_cast; ring, hbytes, hsock, hreq⟩
  simp only [get_bitmap_filename_extract, hfind, ok_bind, hstore0, hcs, hrchr, e1, e2, e3,
    if_false, hraw, Int.toNat_ofNat, hhead, hstoreLF, hself, hrem]


/-- C11 as amended. For a boundary `b` (a string without NUL and without a
network newline inside) and a buffer that holds, all among the buffered bytes
and with `num_bytes <= MAXLINE`, some complete lines that do not begin with
`b`, then the line `b`, then a disposition line without NUL before the name
that ends with `="name"` (the name free of `=` and NUL), `get_bitmap_filename`
reads nothing from the socket, returns exactly the name, and leaves as
buffered bytes the bytes that followed the disposition line, `num_bytes`
reduced by the length of everything before them. -/
theorem get_bitmap_filename_returns_name (MAXLINE : Nat) (net : Net) (b pre name : List Nat)
    (ls : List (List Nat)) (client : ClientState) (rest : List Nat) (fuel : Nat)
    (hb0 : ∀ c ∈ b, c ≠ 0) (hbl : no_crlf b)
    (hbuf : client.buf = buffered_lines ls ++
      (b ++ CR :: LF :: (disposition_line pre name ++ CR :: LF :: rest)))
    (hlen : client.buf.length = MAXLINE)
    (hn1 : (((buffered_lines ls).length + (b.length + 2) +
      ((disposition_line pre name).length + 2) : Nat) : Int) ≤ client.num_bytes)
    (hn2 : client.num_bytes ≤ MAXLINE)
    (hls : ∀ l ∈ ls, no_crlf l ∧ ¬ b <+: l)
    (hD : no_crlf (disposition_line pre name))
    (hpre : ∀ c ∈ pre, c ≠ 0) (hname : ∀ c ∈ name, c ≠ 61 ∧ c ≠ 0)
    (hfuel : ls.length + 1 ≤ fuel) :
    ∃ client1, get_bitmap_filename MAXLINE b fuel client net = .ok (some name, client1, net) ∧
      client1.num_bytes = client.num_bytes - (((buffered_lines ls).length + (b.length + 2) +
        ((disposition_line pre name).length + 2) : Nat) : Int) ∧
      (∀ k : Nat, (k : Int) < client1.num_bytes →
        client1.buf[k]? = client.buf[(buffered_lines ls).length + (b.length + 2) +
          ((disposition_line pre name).length + 2) + k]?) ∧
      client1.sock = client.sock ∧ client1.reqData = client.reqData := by
  have hbuf2 : client.buf = buffered_lines ls ++
      (b ++ CR :: LF :: ((disposition_line pre name ++ [CR, LF]) ++ rest)) := by
    rw [hbuf]; simp
  obtain ⟨client1, rest1, hseek, hb1, hlen1, hnum1, hbytes1, hsock1, hreq1⟩ :=
    seek_finds_boundary_line MAXLINE net b (disposition_line pre name ++ [CR, LF]) hb0 hbl ls
      client rest fuel hbuf2 hlen
      (by simp only [List.length_append, List.length_cons, List.length_nil]
          omega)
      hn2 hls hfuel
  obtain ⟨client2, hext, hnum2, hbytes2, hsock2, hreq2⟩ :=
    extract_filename MAXLINE client1 pre name rest1 (by rw [hb1]; simp) hlen1 hD hpre hname
      (by rw [hnum1]; push_cast at hn1 ⊢; omega) (by rw [hnum1]; omega)
  refine ⟨client2, ?_, ?_, ?_, hsock2.trans hsock1, hreq2.trans hreq1⟩
  · simp only [get_bitmap_filename, hseek, ok_bind, hext]
    rfl
  · rw [hnum2, hnum1]; push_cast; ring
  · intro k hk
    rw [hbytes2 k hk, hbytes1 _ (by rw [hnum2] at hk; push_cast at hk ⊢; omega)]
    congr 1
    omega

set_option maxRecDepth 8000 in
/-- Witness for C11 as amended: after the line `junk` and the boundary line
`--XYZ`, the disposition line ending in `filename="cat.bmp"` gives `cat.bmp`,
and the two buffered bytes `BM` that follow remain. -/
theorem get_bitmap_filename_returns_name_witness :
    ∃ client1,
      get_bitmap_filename 96 (bytes "--XYZ") 2
        ⟨3, buffered_lines [bytes "junk"] ++ (bytes "--XYZ" ++ CR :: LF ::
          (disposition_line (bytes "Content-Disposition: form-data; name=\"f\"; filename")
            (bytes "cat.bmp") ++ CR :: LF :: (bytes "BM" ++ List.replicate 19 0))), 77, none⟩
        [some (bytes "unread")] = .ok (some (bytes "cat.bmp"), client1, [some (bytes "unread")]) ∧
      client1.num_bytes = 2 ∧ client1.buf[0]? = some 66 ∧ client1.buf[1]? = some 77 := by
  obtain ⟨client1, hrun, hnum, hbytes, -, -⟩ :=
    get_bitmap_filename_returns_name 96 [some (bytes "unread")] (bytes "--XYZ")
      (bytes "Content-Disposition: form-data; name=\"f\"; filename") (bytes "cat.bmp")
      [bytes "junk"]
      ⟨3, buffered_lines [bytes "junk"] ++ (bytes "--XYZ" ++ CR :: LF ::
          (disposition_line (bytes "Content-Disposition: form-data; name=\"f\"; filename")
            (bytes "cat.bmp") ++ CR :: LF :: (bytes "BM" ++ List.replicate 19 0))), 77, none⟩
      (bytes "BM" ++ List.replicate 19 0) 2 (by decide) (by decide) rfl (by decide) (by decide)
      (by decide)
      (by
        intro l hl
        have e : l = bytes "junk" := by simpa using hl
        subst e
        decide)
      (by decide) (by decide) (by decide) (by decide)
  have hnum2 : client1.num_bytes = 2 := by rw [hnum]; decide
  refine ⟨client1, hrun, hnum2, ?_, ?_⟩
  · rw [hbytes 0 (by rw [hnum2]; decide)]; decide
  · rw [hbytes 1 (by rw [hnum2]; decide)]; decide

/-- Counterexample for C11: the boundary is `--XYZ`; the buffer holds the lines
`--XYZ--` and `X: k="other"`, both different from the boundary, then the line
`--XYZ`, then the disposition line ending in `filename="cat.bmp"`. The loop
stops on the first line, the second is read as the disposition line, and the
result is `other`, not `cat.bmp`. -/
theorem get_bitmap_filename_takes_wrong_line :
    bytes "--XYZ--" ≠ bytes "--XYZ" ∧ bytes "X: k=\"other\"" ≠ bytes "--XYZ" ∧
    (get_bitmap_filename 64 (bytes "--XYZ") 4
        ⟨3, buffer_of 64 "--XYZ--\r\nX: k=\"other\"\r\n--XYZ\r\nA: filename=\"cat.bmp\"\r\n", 54,
          none⟩ []).bind (fun r => .ok r.1) = .ok (some (bytes "other")) ∧
    bytes "other" ≠ bytes "cat.bmp" := by
  decide


end ImageServer
